import Mathlib

/-!
Verification of the tool dispatch and aggregation layer of a YouTube analytics
server (source file main.py).

Modelling conventions.

* Python floats are modelled as exact rationals; round(x, d) is decimal
  round-half-even (pyRound below), which is the documented semantics of the
  Python builtin on decimal values.
* Raw JSON payloads from the remote API are modelled structurally.  A numeric
  field is Option Int: none stands both for an absent key and for a value on
  which int() raises, the two cases that the helper safe_int turns into 0.
* The HTTP collaborator is a parameter bundle (structure Env).  Each endpoint
  is an environment function; paginated endpoints are response streams indexed
  by the request counter, so a claim quantifying over all collaborator
  responses quantifies over all streams.
* The datetime parser and the float square root inside statistics.stdev are
  collaborator parameters as well (fields fromisoformat and sqrtApprox).
* Strings are processed as List Char wherever the source manipulates them;
  the regex and split operations of the source are embedded as executable
  character-list scans with the same semantics.
* Fallible code returns Except Err; the error taxonomy of the specification
  maps the ValueError messages of the source: malformed caller input is
  Err.invalidInput, a well-formed id with no upstream resource is
  Err.notFound.
* The two pagination while-loops are embedded as a step function plus a
  fuel-indexed runner; none means the loop has not finished within the given
  fuel, and termination is the existence of sufficient fuel.
-/

/-! ## Numeric helpers -/

/-- Round-half-even of a rational to an integer: the semantics of the Python
builtin round on exact decimal values. -/
def roundHalfEven (q : ℚ) : ℤ :=
  if q - Rat.floor q < 1/2 then Rat.floor q
  else if 1/2 < q - Rat.floor q then Rat.floor q + 1
  else if Rat.floor q % 2 = 0 then Rat.floor q else Rat.floor q + 1

/-- Embeds round(x, ndigits): scale, round half to even, scale back. -/
def pyRound (ndigits : ℕ) (q : ℚ) : ℚ :=
  (roundHalfEven (q * 10 ^ ndigits) : ℚ) / 10 ^ ndigits

/-- Embeds the helper safe_int of main.py.  Raw numeric values are modelled as
Option Int; none stands for an absent field or a value on which int() raises,
both of which yield 0 in the source. -/
def safe_int : Option ℤ → ℤ
  | none => 0
  | some n => n

/-- Embeds the helper safe_float of main.py.  Every call site passes a number,
so the failure branch is unreachable and the function is decimal rounding. -/
def safe_float (value : ℚ) (decimals : ℕ) : ℚ := pyRound decimals value

/-! ## String helpers -/

/-- Embeds str.split(sep) for a non-empty separator, fuel-indexed so that the
scan is structurally recursive; fuel is always instantiated with the length of
the scanned list, which suffices because every step consumes at least one
character.  The scan finds non-overlapping occurrences left to right, exactly
as the Python builtin. -/
def pySplitF (sep : List Char) : ℕ → List Char → List (List Char)
  | _, [] => [[]]
  | 0, l => [l]
  | fuel+1, c :: rest =>
    if sep = [] then [c :: rest]
    else if sep.isPrefixOf (c :: rest) then
      [] :: pySplitF sep fuel ((c :: rest).drop sep.length)
    else
      match pySplitF sep fuel rest with
      | [] => [[c]]
      | h :: t => (c :: h) :: t

/-- Embeds str.split(sep): the fuel-indexed scan at full fuel. -/
def pySplit (sep l : List Char) : List (List Char) := pySplitF sep l.length l

/-- Embeds str.replace(old, new) for single-character arguments. -/
def replaceChar (old new : Char) (s : List Char) : List Char :=
  s.map fun c => if c = old then new else c

/-- Embeds the substring test of the in operator on strings. -/
def containsSub (pat : List Char) : List Char → Bool
  | [] => pat.isPrefixOf []
  | c :: rest => pat.isPrefixOf (c :: rest) || containsSub pat rest

/-- Stable insertion into a sorted list: the new element goes after every
element that compares less-or-equal first. -/
def insertLe (le : α → α → Bool) (x : α) : List α → List α
  | [] => [x]
  | y :: ys => if le y x then y :: insertLe le x ys else x :: y :: ys

/-- Embeds the Python sorted builtin with a key comparison: a stable sort.
Stability determines the output uniquely from the comparison, so stable
insertion sort is extensionally the sort used by the source; it is chosen
here because it is structurally recursive and kernel-computable. -/
def pySorted (le : α → α → Bool) (l : List α) : List α :=
  l.foldl (fun acc x => insertLe le x acc) []

/-! ## Duration parsing -/

/-- Value of a run of decimal digits, the int() applied to a regex group. -/
def natOfDigits : List Char → ℕ := List.foldl (fun n c => 10 * n + (c.toNat - 48)) 0

/-- Embeds one optional component (?:(\d+)X)? of the duration regex: a greedy
digit run must be followed by the marker letter, otherwise the group matches
the empty string and contributes 0. -/
def durComponent (marker : Char) (s : List Char) : ℕ × List Char :=
  let ds := s.takeWhile Char.isDigit
  let rest := s.drop ds.length
  if ds ≠ [] ∧ rest.head? = some marker then (natOfDigits ds, rest.tail) else (0, s)

/-- Embeds parse_duration of main.py: the anchored regex
PT(?:(\d+)H)?(?:(\d+)M)?(?:(\d+)S)? with re.match semantics (anchored at the
start only, trailing input ignored, no match at all gives 0).  The digit class
is modelled as ASCII digits. -/
def parse_duration (iso_duration : String) : ℕ :=
  let s := iso_duration.data
  if s.take 2 = ['P', 'T'] then
    let h := durComponent 'H' (s.drop 2)
    let m := durComponent 'M' h.2
    let sec := durComponent 'S' m.2
    h.1 * 3600 + m.1 * 60 + sec.1
  else 0

/-! ## Thumbnails -/

/-- Quality tiers tried by thumbnail_url, in source order. -/
def thumbQualities : List String := ["maxres", "standard", "high", "medium", "default"]

/-- Embeds the for-loop of thumbnail_url over a tier list; the thumbnails dict
is modelled as a partial map from quality to the url entry. -/
def pickThumb (thumbnails : String → Option String) : List String → String
  | [] => ""
  | q :: rest =>
    match thumbnails q with
    | some u => u
    | none => pickThumb thumbnails rest

/-- Embeds thumbnail_url of main.py. -/
def thumbnail_url (thumbnails : String → Option String) : String :=
  pickThumb thumbnails thumbQualities

/-! ## Data model -/

/-- Error taxonomy of the specification; the source raises ValueError with a
message, classified here by the message family. -/
inductive Err where
  | invalidInput
  | notFound
deriving DecidableEq

/-- Decidable equality of Except results, for evaluating concrete runs. -/
instance {ε α : Type} [DecidableEq ε] [DecidableEq α] : DecidableEq (Except ε α) := fun a b =>
  match a, b with
  | .error e, .error f =>
    if h : e = f then isTrue (by rw [h]) else isFalse (by intro hh; cases hh; exact h rfl)
  | .error _, .ok _ => isFalse (by intro hh; cases hh)
  | .ok _, .error _ => isFalse (by intro hh; cases hh)
  | .ok x, .ok y =>
    if h : x = y then isTrue (by rw [h]) else isFalse (by intro hh; cases hh; exact h rfl)

/-- Raw item of the videos endpoint with part snippet,contentDetails,statistics.
An absent snippet, contentDetails or statistics sub-dict is modelled as all of
its fields being none, which the source treats identically via dict get
defaults. -/
structure RawVideo where
  id : String
  title : Option String
  description : Option String
  tags : Option (List String)
  publishedAt : Option String
  duration : Option String
  viewCount : Option ℤ
  likeCount : Option ℤ
  commentCount : Option ℤ
  thumbnails : String → Option String

/-- Normalized video record built by the aggregator loop in
fetch_videos_for_channel. -/
structure VideoRec where
  video_id : String
  title : String
  description : String
  tags : List String
  published_at : String
  duration_seconds : ℕ
  views : ℤ
  likes : ℤ
  comments : ℤ
  thumbnail_url : String
deriving DecidableEq

/-- Embeds the normalization of one raw video item inside
fetch_videos_for_channel. -/
def normalizeVideo (item : RawVideo) : VideoRec :=
  { video_id := item.id
    title := item.title.getD ""
    description := item.description.getD ""
    tags := item.tags.getD []
    published_at := item.publishedAt.getD ""
    duration_seconds := parse_duration (item.duration.getD "PT0S")
    views := safe_int item.viewCount
    likes := safe_int item.likeCount
    comments := safe_int item.commentCount
    thumbnail_url := thumbnail_url item.thumbnails }

/-- Raw playlistItems entry: contentDetails.videoId when present. -/
structure RawPlaylistItem where
  videoId : Option String

/-- One page of a paged list endpoint. -/
structure RawPage (α : Type) where
  items : List α
  nextPageToken : Option String

/-- Raw snippet of a top-level comment, flattened through
snippet.topLevelComment.snippet as the source does with dict get defaults. -/
structure RawComment where
  authorDisplayName : Option String
  textDisplay : Option String
  likeCount : Option ℤ
  publishedAt : Option String

/-- Comment record built by the loop in get_video_comments. -/
structure CommentRec where
  author : String
  text : String
  like_count : ℤ
  published_at : String
deriving DecidableEq

/-- Embeds the comment normalization inside the get_video_comments loop. -/
def mkComment (s : RawComment) : CommentRec :=
  { author := s.authorDisplayName.getD ""
    text := s.textDisplay.getD ""
    like_count := safe_int s.likeCount
    published_at := s.publishedAt.getD "" }

/-- Raw channels item with part snippet,statistics, flattened. -/
structure RawChannelStats where
  title : Option String
  description : Option String
  subscriberCount : Option ℤ
  viewCount : Option ℤ
  videoCount : Option ℤ
  publishedAt : Option String
  thumbnails : String → Option String

/-- Raw channels item with part snippet,topicDetails, flattened. -/
structure RawTopicItem where
  title : Option String
  topicCategories : Option (List String)

/-- Result of datetime.fromisoformat, abstracted to the three projections the
source reads: an absolute time in seconds, the weekday index (Monday 0) and
the hour of day. -/
structure PyDateTime where
  totalSeconds : ℤ
  weekday : Fin 7
  hour : Fin 24
deriving DecidableEq

/-- The external collaborator bundle: one field per upstream endpoint or
library call used by the embedded tools.  Paged endpoints are response streams
indexed by the request counter of the calling loop. -/
structure Env where
  handleItems : String → List String
  channelUploads : String → List String
  playlistPages : String → ℕ → RawPage RawPlaylistItem
  videosByIds : List String → List RawVideo
  channelStats : String → List RawChannelStats
  channelTopicItems : String → List RawTopicItem
  videoCommentStats : String → List (Option ℤ)
  videoCommentPages : String → ℕ → RawPage RawComment
  fromisoformat : String → Option PyDateTime
  sqrtApprox : ℚ → ℚ

/-! ## URL resolution (resolve_channel_id) -/

/-- Characters of a valid URL scheme as recognized by urlparse. -/
def isSchemeChar (c : Char) : Bool :=
  c.isAlpha || c.isDigit || c = '+' || c = '-' || c = '.'

/-- Embeds the scheme-stripping step of urlparse: a leading
letter-initial run of scheme characters followed by a colon is removed. -/
def dropScheme (s : List Char) : List Char :=
  let pre := s.takeWhile (· ≠ ':')
  if pre.length < s.length ∧ pre ≠ [] ∧ (pre.headD ' ').isAlpha ∧ pre.all isSchemeChar
  then s.drop (pre.length + 1) else s

/-- The fragment and query split of urlparse: everything from the first hash
is the fragment, then everything from the first question mark is the query,
and both are discarded for the path. -/
def qfStrip (l : List Char) : List Char :=
  (l.takeWhile (· ≠ '#')).takeWhile (· ≠ '?')

/-- The netloc skip of urlparse: after a leading double slash the authority
extends to the next slash, and the path is the rest. -/
def pathStage (s : List Char) : List Char :=
  if s.take 2 = ['/', '/'] then (s.drop 2).dropWhile (· ≠ '/') else s

/-- The scheme recognized by urlparse, lowercased: a letter-initial run of
scheme characters before the first colon; empty when the URL has no valid
scheme prefix (and the empty scheme also uses params below). -/
def schemeOf (s : List Char) : List Char :=
  let pre := s.takeWhile (· ≠ ':')
  if pre.length < s.length ∧ pre ≠ [] ∧ (pre.headD ' ').isAlpha ∧ pre.all isSchemeChar
  then pre.map Char.toLower else []

/-- The schemes for which urlparse performs the params split, including the
empty scheme of a scheme-less URL. -/
def uses_params : List String :=
  ["", "ftp", "hdl", "prospero", "http", "imap", "https", "shttp", "rtsp",
   "rtspu", "sip", "sips", "mms", "sftp", "tel"]

/-- The params split of urlparse on the path: a semicolon suffix of the last
path segment (of the whole path when it contains no slash) is split off into
the params component and dropped from the path; a semicolon at or before the
last slash is untouched. -/
def splitParams (p : List Char) : List Char :=
  if ';' ∈ p then
    if '/' ∈ p then
      let seg := (p.reverse.takeWhile (· ≠ '/')).reverse
      if ';' ∈ seg then p.take (p.length - seg.length) ++ seg.takeWhile (· ≠ ';')
      else p
    else p.takeWhile (· ≠ ';')
  else p

/-- Embeds the path extraction of urlparse as used by resolve_channel_id:
fragment and query are split off, the scheme is removed, a //netloc segment is
skipped up to the next slash, and for a scheme that uses params a semicolon
suffix of the last path segment is split off. -/
def urlPath (url : String) : List Char :=
  if (⟨schemeOf (qfStrip url.data)⟩ : String) ∈ uses_params
  then splitParams (pathStage (dropScheme (qfStrip url.data)))
  else pathStage (dropScheme (qfStrip url.data))

/-- Embeds path.rstrip with a slash argument. -/
def rstripSlash (s : List Char) : List Char :=
  (s.reverse.dropWhile (· = '/')).reverse

/-- Character class [\w-] of the channel-id regex, ASCII model of word
characters plus dash. -/
def isWordDash (c : Char) : Bool := c.isAlphanum || c = '_' || c = '-'

/-- Character class [\w.-] of the handle regex. -/
def isHandleChar (c : Char) : Bool := c.isAlphanum || c = '_' || c = '.' || c = '-'

/-- Embeds the anchored regex match of /channel/(UC[\w-]+) against the whole
path; the captured group includes the UC marker and must be non-empty after
it. -/
def matchChannelId (path : List Char) : Option String :=
  if "/channel/UC".data.isPrefixOf path ∧ path.drop 11 ≠ [] ∧
      (path.drop 11).all isWordDash
  then some ⟨"UC".data ++ path.drop 11⟩ else none

/-- Embeds the anchored regex match of /@([\w.-]+) against the whole path. -/
def matchHandle (path : List Char) : Option String :=
  if "/@".data.isPrefixOf path ∧ path.drop 2 ≠ [] ∧ (path.drop 2).all isHandleChar
  then some ⟨path.drop 2⟩ else none

/-- Embeds resolve_channel_id of main.py.  The handle branch issues one
channels lookup through the environment; no items is the not-found failure,
and a path matching neither shape is the invalid-input failure. -/
def resolve_channel_id (env : Env) (channel_url : String) : Except Err String :=
  let path := rstripSlash (urlPath channel_url)
  match matchChannelId path with
  | some cid => .ok cid
  | none =>
    match matchHandle path with
    | some handle =>
      match env.handleItems handle with
      | [] => .error .notFound
      | cid :: _ => .ok cid
    | none => .error .invalidInput

/-! ## Pagination loop -/

/-- Python truthiness of the next-page token: absent or empty is falsy. -/
def truthyTok : Option String → Bool
  | none => false
  | some s => s ≠ ""

/-- State of the shared pagination while-loop: the accumulator list, the
current page token and the number of requests issued so far. -/
structure LoopState (β : Type) where
  acc : List β
  tok : Option String
  calls : ℕ

/-- Result of one loop iteration: either the loop broke with the accumulated
items, or it continues in a new state. -/
inductive StepRes (β : Type) where
  | done (acc : List β)
  | next (s : LoopState β)

/-- One iteration of the pagination while-loop shared by
fetch_videos_for_channel and get_video_comments: the while condition is
checked first, then one request is issued (the stream is indexed by the
request counter; the source also computes a batch size min(pageSize,
remaining), which parametrizes the request but not the loop logic), the page
items are appended, and the loop breaks when the returned token is falsy or
the accumulator has reached the limit. -/
def pageStep (pages : ℕ → List β × Option String) (limit : ℕ) (s : LoopState β) :
    StepRes β :=
  if limit ≤ s.acc.length then .done s.acc
  else
    let page := pages s.calls
    let acc := s.acc ++ page.1
    if truthyTok page.2 = false ∨ limit ≤ acc.length then .done acc
    else .next ⟨acc, page.2, s.calls + 1⟩

/-- Fuel-indexed runner of the pagination loop; none means the loop has not
broken within the given number of iterations. -/
def pageLoop (pages : ℕ → List β × Option String) (limit : ℕ) :
    ℕ → LoopState β → Option (List β)
  | 0, _ => none
  | fuel+1, s =>
    match pageStep pages limit s with
    | .done acc => some acc
    | .next s2 => pageLoop pages limit fuel s2

/-- The pagination loop from its initial state. -/
def runPageLoop (pages : ℕ → List β × Option String) (limit fuel : ℕ) :
    Option (List β) :=
  pageLoop pages limit fuel ⟨[], none, 0⟩

/-- Termination of the pagination loop on a given response stream. -/
def LoopTerminates (pages : ℕ → List β × Option String) (limit : ℕ) : Prop :=
  ∃ fuel, (runPageLoop pages limit fuel).isSome

/-- Item extraction of the playlistItems loop: contentDetails.videoId is
appended only when present and truthy (the non-empty check of the source). -/
def playlistPageItems (page : RawPage RawPlaylistItem) : List String :=
  page.items.filterMap fun it =>
    match it.videoId with
    | some v => if v ≠ "" then some v else none
    | none => none

/-- The playlistItems response stream as consumed by the video-id loop. -/
def videoIdPages (pages : ℕ → RawPage RawPlaylistItem) :
    ℕ → List String × Option String :=
  fun i => (playlistPageItems (pages i), (pages i).nextPageToken)

/-- The commentThreads response stream as consumed by the comment loop: every
item is appended as a comment record. -/
def commentPagesOf (pages : ℕ → RawPage RawComment) :
    ℕ → List CommentRec × Option String :=
  fun i => ((pages i).items.map mkComment, (pages i).nextPageToken)

/-! ## Channel video aggregator -/

/-- Embeds get_uploads_playlist_id of main.py. -/
def get_uploads_playlist_id (env : Env) (channel_id : String) : Except Err String :=
  match env.channelUploads channel_id with
  | [] => .error .notFound
  | pid :: _ => .ok pid

/-- Fuel-indexed slicing into batches of at most 50 ids, the
range(0, len, 50) loop; fuel is instantiated with the list length, which
always suffices. -/
def chunks50F : ℕ → List String → List (List String)
  | _, [] => []
  | 0, l => [l]
  | fuel+1, l => l.take 50 :: chunks50F fuel (l.drop 50)

/-- Batches of at most 50 ids. -/
def chunks50 (l : List String) : List (List String) := chunks50F l.length l

/-- Embeds the detail-fetch half of fetch_videos_for_channel: one videos call
per batch of 50 ids, every returned item normalized, in order. -/
def fetchDetails (env : Env) (ids : List String) : List VideoRec :=
  ((chunks50 ids).map fun batch => (env.videosByIds batch).map normalizeVideo).flatten

/-- Embeds fetch_videos_for_channel of main.py: resolve the channel, look up
its uploads playlist, run the pagination loop collecting video ids, then batch
fetch and normalize.  The fuel bounds the pagination loop; none means the loop
has not finished within fuel iterations. -/
def fetch_videos_for_channel (env : Env) (channel_url : String) (limit fuel : ℕ) :
    Option (Except Err (List VideoRec)) :=
  match resolve_channel_id env channel_url with
  | .error e => some (.error e)
  | .ok channel_id =>
    match get_uploads_playlist_id env channel_id with
    | .error e => some (.error e)
    | .ok pid =>
      match runPageLoop (videoIdPages (env.playlistPages pid)) limit fuel with
      | none => none
      | some video_ids =>
        if video_ids = [] then some (.ok [])
        else some (.ok (fetchDetails env video_ids))

/-! ## get_channel_videos -/

/-- Field value of a result dict entry. -/
inductive FieldVal where
  | s (v : String)
  | n (v : ℤ)
  | d (v : ℕ)
  | ls (v : List String)
deriving DecidableEq

/-- Dict view of a normalized video record: its key-value items in
construction order, as traversed by video.items() in the source. -/
def videoDictItems (v : VideoRec) : List (String × FieldVal) :=
  [("video_id", .s v.video_id), ("title", .s v.title),
   ("description", .s v.description), ("tags", .ls v.tags),
   ("published_at", .s v.published_at),
   ("duration_seconds", .d v.duration_seconds), ("views", .n v.views),
   ("likes", .n v.likes), ("comments", .n v.comments),
   ("thumbnail_url", .s v.thumbnail_url)]

/-- Embeds get_channel_videos of main.py: the aggregator output with the dict
comprehension dropping the tags key from every record. -/
def get_channel_videos (env : Env) (channel_url : String) (limit fuel : ℕ) :
    Option (Except Err (List (List (String × FieldVal)))) :=
  (fetch_videos_for_channel env channel_url limit fuel).map
    (Except.map (List.map fun video =>
      (videoDictItems video).filter fun kv => kv.1 ≠ "tags"))

/-! ## get_video_comments -/

/-- Result shape of get_video_comments. -/
structure CommentsResult where
  video_id : String
  total_comment_count : ℤ
  returned_comment_count : ℕ
  comments : List CommentRec
deriving DecidableEq

/-- Embeds get_video_comments of main.py: one statistics lookup for the total
count (0 when the video lookup returns no items), then the pagination loop
over comment threads. -/
def get_video_comments (env : Env) (video_id : String) (limit fuel : ℕ) :
    Option CommentsResult :=
  let total_count : ℤ :=
    match env.videoCommentStats video_id with
    | [] => 0
    | c :: _ => safe_int c
  match runPageLoop (commentPagesOf (env.videoCommentPages video_id)) limit fuel with
  | none => none
  | some comments =>
    some { video_id := video_id
           total_comment_count := total_count
           returned_comment_count := comments.length
           comments := comments }

/-! ## Engagement rate and compare_videos -/

/-- The shared engagement formula, written inline at its three call sites in
the source: safe_float((likes + comments) / views * 100 if views > 0 else
0). -/
def engagementRate (views likes comments : ℤ) : ℚ :=
  safe_float (if 0 < views then ((likes : ℚ) + comments) / views * 100 else 0) 4

/-- Per-video record of compare_videos. -/
structure CompareVideoRec where
  video_id : String
  title : String
  published_at : String
  duration_seconds : ℕ
  views : ℤ
  likes : ℤ
  comments : ℤ
  engagement_rate_pct : ℚ
deriving DecidableEq

/-- Embeds the record construction loop of compare_videos. -/
def mkCompareVideoRec (item : RawVideo) : CompareVideoRec :=
  { video_id := item.id
    title := item.title.getD ""
    published_at := item.publishedAt.getD ""
    duration_seconds := parse_duration (item.duration.getD "PT0S")
    views := safe_int item.viewCount
    likes := safe_int item.likeCount
    comments := safe_int item.commentCount
    engagement_rate_pct :=
      engagementRate (safe_int item.viewCount) (safe_int item.likeCount)
        (safe_int item.commentCount) }

/-- Embeds the Python max builtin with a key function: the first element of
maximal key is returned (a later element replaces the current best only when
its key is strictly greater); none on the empty list models the ValueError of
max. -/
def pyMaxBy [LinearOrder γ] (key : α → γ) : List α → Option α
  | [] => none
  | x :: rest => some (rest.foldl (fun best y => if key best < key y then y else best) x)

/-- Result shape of compare_videos. -/
structure CompareVideosResult where
  videos : List CompareVideoRec
  winner_by_views : String
  winner_by_likes : String
  winner_by_comments : String
  winner_by_engagement_rate : String
deriving DecidableEq

/-- The winner helper of compare_videos: empty string on an empty record
list, otherwise the video id of the first maximum. -/
def videoWinner (key : CompareVideoRec → ℚ) (videos : List CompareVideoRec) : String :=
  match pyMaxBy key videos with
  | none => ""
  | some v => v.video_id

/-- Embeds compare_videos of main.py: empty input is the invalid-input
failure, the id list is silently truncated to 10, one batch lookup is issued
and winners are picked per metric. -/
def compare_videos (env : Env) (video_ids : List String) : Except Err CompareVideosResult :=
  if video_ids = [] then .error .invalidInput
  else
    let vids := (env.videosByIds (video_ids.take 10)).map mkCompareVideoRec
    .ok { videos := vids
          winner_by_views := videoWinner (fun v => (v.views : ℚ)) vids
          winner_by_likes := videoWinner (fun v => (v.likes : ℚ)) vids
          winner_by_comments := videoWinner (fun v => (v.comments : ℚ)) vids
          winner_by_engagement_rate := videoWinner (fun v => v.engagement_rate_pct) vids }

/-! ## get_channel_overview and compare_channels -/

/-- Result shape of get_channel_overview. -/
structure ChannelOverview where
  channel_id : String
  title : String
  description : String
  subscriber_count : ℤ
  total_views : ℤ
  total_videos : ℤ
  created_at : String
  thumbnail_url : String
deriving DecidableEq

/-- Embeds get_channel_overview of main.py. -/
def get_channel_overview (env : Env) (channel_url : String) : Except Err ChannelOverview := do
  let channel_id ← resolve_channel_id env channel_url
  match env.channelStats channel_id with
  | [] => .error .notFound
  | item :: _ =>
    pure { channel_id := channel_id
           title := item.title.getD ""
           description := item.description.getD ""
           subscriber_count := safe_int item.subscriberCount
           total_views := safe_int item.viewCount
           total_videos := safe_int item.videoCount
           created_at := item.publishedAt.getD ""
           thumbnail_url := thumbnail_url item.thumbnails }

/-- Result shape of compare_channels. -/
structure CompareChannelsResult where
  channels : List ChannelOverview
  winner_by_subscribers : String
  winner_by_total_views : String
  winner_by_video_count : String
deriving DecidableEq

/-- The winner helper of compare_channels. -/
def channelWinner (key : ChannelOverview → ℤ) (channels : List ChannelOverview) : String :=
  match pyMaxBy key channels with
  | none => ""
  | some c => c.channel_id

/-- Embeds compare_channels of main.py: empty input is the invalid-input
failure, the url list is silently truncated to 5, one overview is fetched per
url (the first failure propagates, as in the list comprehension), winners are
picked per metric. -/
def compare_channels (env : Env) (channel_urls : List String) :
    Except Err CompareChannelsResult :=
  if channel_urls = [] then .error .invalidInput
  else do
    let channels ← (channel_urls.take 5).mapM (get_channel_overview env)
    pure { channels := channels
           winner_by_subscribers := channelWinner (fun c => c.subscriber_count) channels
           winner_by_total_views := channelWinner (fun c => c.total_views) channels
           winner_by_video_count := channelWinner (fun c => c.total_videos) channels }

/-! ## get_top_videos -/

/-- Video record of get_top_videos after the enrichment loop added the
engagement field to each aggregator record. -/
structure EnrichedVideo where
  base : VideoRec
  engagement_rate_pct : ℚ
deriving DecidableEq

/-- The enrichment loop body of get_top_videos. -/
def enrich (v : VideoRec) : EnrichedVideo :=
  ⟨v, engagementRate v.views v.likes v.comments⟩

/-- Output record of get_top_videos. -/
structure TopVideoRec where
  rank : ℕ
  video_id : String
  title : String
  published_at : String
  duration_seconds : ℕ
  views : ℤ
  likes : ℤ
  comments : ℤ
  engagement_rate_pct : ℚ
deriving DecidableEq

/-- The valid metric set of get_top_videos. -/
def valid_metrics : List String := ["views", "likes", "comments", "engagement_rate"]

/-- The sort key of get_top_videos: the record field named by the metric
(engagement_rate selects the enriched field).  The integer count fields are
compared as rationals, which orders them identically. -/
def metricKey (metric : String) (v : EnrichedVideo) : ℚ :=
  if metric = "engagement_rate" then v.engagement_rate_pct
  else if metric = "views" then (v.base.views : ℚ)
  else if metric = "likes" then (v.base.likes : ℚ)
  else (v.base.comments : ℚ)

/-- The same sort key read off an output record of get_top_videos. -/
def metricKeyOut (metric : String) (v : TopVideoRec) : ℚ :=
  if metric = "engagement_rate" then v.engagement_rate_pct
  else if metric = "views" then (v.views : ℚ)
  else if metric = "likes" then (v.likes : ℚ)
  else (v.comments : ℚ)

/-- Embeds the enumerate comprehension of get_top_videos assigning 1-based
ranks in list order. -/
def withRanks (idx : ℕ) : List EnrichedVideo → List TopVideoRec
  | [] => []
  | v :: rest =>
    { rank := idx + 1
      video_id := v.base.video_id
      title := v.base.title
      published_at := v.base.published_at
      duration_seconds := v.base.duration_seconds
      views := v.base.views
      likes := v.base.likes
      comments := v.base.comments
      engagement_rate_pct := v.engagement_rate_pct } :: withRanks (idx + 1) rest

/-- Embeds the pure tail of get_top_videos over the aggregated video list:
metric validation, enrichment, the stable descending sort of the sorted
builtin with reverse=True (merge sort preferring the left element on ties,
with the key order reversed), truncation and rank assignment. -/
def top_videos_of (videos : List VideoRec) (metric : String) (limit : ℕ) :
    Except Err (List TopVideoRec) :=
  if metric ∉ valid_metrics then .error .invalidInput
  else
    let enriched := videos.map enrich
    let sorted_videos :=
      (pySorted (fun a b => metricKey metric b ≤ metricKey metric a) enriched).take limit
    .ok (withRanks 0 sorted_videos)

/-- Embeds get_top_videos of main.py: metric validation, the aggregator at
its fixed 200-video scan window, then the pure tail. -/
def get_top_videos (env : Env) (channel_url : String) (metric : String)
    (limit fuel : ℕ) : Option (Except Err (List TopVideoRec)) :=
  if metric ∉ valid_metrics then some (.error .invalidInput)
  else
    (fetch_videos_for_channel env channel_url 200 fuel).map fun r =>
      r.bind fun videos => top_videos_of videos metric limit

/-! ## get_upload_schedule -/

/-- Weekday names of the source, Monday first. -/
def day_names : List String :=
  ["Monday", "Tuesday", "Wednesday", "Thursday", "Friday", "Saturday", "Sunday"]

/-- Embeds one increment of a collections.Counter: dicts preserve insertion
order, so an existing key is bumped in place and a new key is appended. -/
def counterAdd (k : String) : List (String × ℕ) → List (String × ℕ)
  | [] => [(k, 1)]
  | (k2, n) :: rest => if k2 = k then (k2, n + 1) :: rest else (k2, n) :: counterAdd k rest

/-- The two-digit zero-padded hour key of the f-string 02d format. -/
def hourKey (h : Fin 24) : String :=
  (if h.val < 10 then "0" else "") ++ toString h.val

/-- State of the bucketing loop of get_upload_schedule: day counter, hour
counter, parsed timestamps in video order. -/
structure SchedState where
  byDay : List (String × ℕ)
  byHour : List (String × ℕ)
  timestamps : List PyDateTime
deriving DecidableEq

/-- One iteration of the bucketing loop: a parse failure skips the whole
record (the try block raises before any counter is touched). -/
def schedStep (parse : String → Option PyDateTime) (st : SchedState) (v : VideoRec) :
    SchedState :=
  match parse v.published_at with
  | none => st
  | some dt =>
    { byDay := counterAdd (day_names.getD dt.weekday.val "") st.byDay
      byHour := counterAdd (hourKey dt.hour) st.byHour
      timestamps := st.timestamps ++ [dt] }

/-- The bucketing loop of get_upload_schedule. -/
def schedBuckets (parse : String → Option PyDateTime) (videos : List VideoRec) :
    SchedState :=
  videos.foldl (schedStep parse) ⟨[], [], []⟩

/-- Embeds the day difference of two datetimes: timedelta.days is the floor
of the total seconds over 86400. -/
def gapDays (a b : PyDateTime) : ℤ := Int.fdiv (b.totalSeconds - a.totalSeconds) 86400

/-- The gap comprehension of get_upload_schedule over consecutive sorted
timestamps. -/
def consecutiveGaps : List PyDateTime → List ℤ
  | a :: b :: rest => gapDays a b :: consecutiveGaps (b :: rest)
  | _ => []

/-- Sample variance with Bessel correction, the square of statistics.stdev
before the square root. -/
def sampleVariance (l : List ℤ) : ℚ :=
  let mean : ℚ := (l.map fun x => (x : ℚ)).sum / l.length
  (l.map fun x => ((x : ℚ) - mean) ^ 2).sum / (l.length - 1)

/-- Embeds statistics.stdev as a collaborator: the square root of the sample
variance through the float square root parameter; fewer than two data points
raise StatisticsError, modelled as none. -/
def stdevOpt (sqrtApprox : ℚ → ℚ) (l : List ℤ) : Option ℚ :=
  if 2 ≤ l.length then some (sqrtApprox (sampleVariance l)) else none

/-- Result shape of get_upload_schedule. -/
structure ScheduleResult where
  total_videos_analyzed : ℕ
  avg_days_between_uploads : ℚ
  consistency_score_pct : ℚ
  posts_by_day : List (String × ℕ)
  posts_by_hour : List (String × ℕ)
  best_posting_day : String
  best_posting_hour : String
deriving DecidableEq

/-- The most_common(1) pick of a counter: the first key of maximal count,
empty string on an empty counter (the source guards with a truthiness
check). -/
def counterBest (counter : List (String × ℕ)) : String :=
  match pyMaxBy (fun p => p.2) counter with
  | none => ""
  | some p => p.1

/-- The gap statistics of get_upload_schedule, a function of the parsed
timestamp list: gaps over the chronologically sorted timestamps; average gap
rounded to 1 decimal; consistency max(0, 100 - (stdev / max(mean, 1)) * 50)
rounded to 1 decimal, with the StatisticsError of a single gap giving 0; both
0 with fewer than two timestamps. -/
def scheduleStats (sqrtApprox : ℚ → ℚ) (timestamps : List PyDateTime) : ℚ × ℚ :=
  let timestamps_sorted := pySorted (fun a b => a.totalSeconds ≤ b.totalSeconds) timestamps
  let gaps := consecutiveGaps timestamps_sorted
  if 1 < timestamps.length then
    let avg := safe_float ((gaps.map fun g => (g : ℚ)).sum / gaps.length) 1
    let consistency :=
      if gaps ≠ [] then
        let mean_gap : ℚ := (gaps.map fun g => (g : ℚ)).sum / gaps.length
        match stdevOpt sqrtApprox gaps with
        | some std => safe_float (max 0 (100 - std / max mean_gap 1 * 50)) 1
        | none => 0
      else 0
    (avg, consistency)
  else (0, 0)

/-- Embeds the pure tail of get_upload_schedule over the aggregated video
list: empty list is the invalid-input failure; one bucketing pass; the gap
statistics of the parsed timestamps; finally the day counter sorted Monday
first and the hour counter sorted by key. -/
def upload_schedule_of (parse : String → Option PyDateTime) (sqrtApprox : ℚ → ℚ)
    (videos : List VideoRec) : Except Err ScheduleResult :=
  if videos = [] then .error .invalidInput
  else
    let st := schedBuckets parse videos
    let stats := scheduleStats sqrtApprox st.timestamps
    let best_day := counterBest st.byDay
    let best_hour := counterBest st.byHour
    .ok { total_videos_analyzed := videos.length
          avg_days_between_uploads := stats.1
          consistency_score_pct := stats.2
          posts_by_day :=
            pySorted (fun a b => day_names.indexOf a.1 ≤ day_names.indexOf b.1) st.byDay
          posts_by_hour := pySorted (fun a b => a.1 ≤ b.1) st.byHour
          best_posting_day := best_day
          best_posting_hour := if best_hour ≠ "" then best_hour ++ ":00 UTC" else "" }

/-- Embeds get_upload_schedule of main.py: the aggregator then the pure
tail. -/
def get_upload_schedule (env : Env) (channel_url : String) (limit fuel : ℕ) :
    Option (Except Err ScheduleResult) :=
  (fetch_videos_for_channel env channel_url limit fuel).map fun r =>
    r.bind (upload_schedule_of env.fromisoformat env.sqrtApprox)

/-! ## get_channel_topics -/

/-- Result shape of get_channel_topics. -/
structure TopicsResult where
  channel_id : String
  title : String
  topics : List String
  topic_category_urls : List String
deriving DecidableEq

/-- Embeds the readable-topic derivation of get_channel_topics:
url.split("/wiki/")[-1].replace("_", " "). -/
def topicName (url : String) : String :=
  ⟨replaceChar '_' ' ' ((pySplit "/wiki/".data url.data).getLastD [])⟩

/-- Modelled from the spec: the readable topic name as the last path segment
of the topic-category URL, that is the part after the final slash, with
underscores replaced by spaces.  Stated for comparison with the source
derivation topicName. -/
def lastPathSegmentName (url : String) : String :=
  ⟨replaceChar '_' ' ' ((url.data.reverse.takeWhile fun c => c ≠ '/').reverse)⟩

/-- Embeds get_channel_topics of main.py: resolve, one topicDetails lookup,
readable names from the topicCategories urls. -/
def get_channel_topics (env : Env) (channel_url : String) : Except Err TopicsResult := do
  let channel_id ← resolve_channel_id env channel_url
  match env.channelTopicItems channel_id with
  | [] => .error .notFound
  | item :: _ =>
    let raw_categories := item.topicCategories.getD []
    pure { channel_id := channel_id
           title := item.title.getD ""
           topics := raw_categories.map topicName
           topic_category_urls := raw_categories }

/-! ## get_video_seo_score -/

/-- One dimension check of the SEO scorer. -/
structure SeoCheck where
  score : ℕ
  status : String
  note : String
deriving DecidableEq

/-- Embeds the title length check of get_video_seo_score. -/
def title_length_check (title : String) : SeoCheck :=
  let tlen := title.length
  if 40 ≤ tlen ∧ tlen ≤ 70 then
    ⟨100, "great", toString tlen ++ " chars (ideal: 40–70)"⟩
  else if 20 ≤ tlen ∧ tlen < 40 then
    ⟨70, "ok", toString tlen ++ " chars (a bit short, ideal: 40–70)"⟩
  else if 70 < tlen then
    ⟨60, "ok", toString tlen ++ " chars (a bit long, ideal: 40–70)"⟩
  else
    ⟨30, "poor", toString tlen ++ " chars (too short)"⟩

/-- Embeds the description length check of get_video_seo_score. -/
def description_length_check (description : String) : SeoCheck :=
  let dlen := description.length
  if 500 ≤ dlen then ⟨100, "great", toString dlen ++ " chars"⟩
  else if 200 ≤ dlen then ⟨80, "good", toString dlen ++ " chars (ideal: 500+)"⟩
  else if 50 ≤ dlen then ⟨50, "ok", toString dlen ++ " chars (ideal: 200+)"⟩
  else ⟨10, "poor", toString dlen ++ " chars (missing or very short)"⟩

/-- Embeds the tag count check of get_video_seo_score. -/
def tag_count_check (tags : List String) : SeoCheck :=
  let tcount := tags.length
  if 5 ≤ tcount ∧ tcount ≤ 15 then
    ⟨100, "great", toString tcount ++ " tags (ideal: 5–15)"⟩
  else if 15 < tcount then
    ⟨70, "ok", toString tcount ++ " tags (slightly over, ideal: 5–15)"⟩
  else if 1 ≤ tcount ∧ tcount < 5 then
    ⟨50, "ok", toString tcount ++ " tags (too few, ideal: 5–15)"⟩
  else
    ⟨0, "poor", "No tags found"⟩

/-- Embeds the thumbnail presence check of get_video_seo_score. -/
def thumbnail_check (thumbnail : String) : SeoCheck :=
  if thumbnail ≠ "" then ⟨100, "great", "Thumbnail present"⟩
  else ⟨0, "poor", "No thumbnail found"⟩

/-- The regex search for \d+:\d+ in the description: some window of three
characters digit, colon, digit exists, which is exactly when the regex
matches somewhere. -/
def hasTimestampPattern : List Char → Bool
  | a :: b :: c :: rest =>
    (a.isDigit && b == ':' && c.isDigit) || hasTimestampPattern (b :: c :: rest)
  | _ => false

/-- Embeds the description quality check of get_video_seo_score: base 60, 20
for a link, 20 for a chapter timestamp, capped at 100, with the status bands
computed on the uncapped score as in the source. -/
def description_quality_check (description : String) : SeoCheck :=
  let has_links := containsSub "http".data (description.data.map Char.toLower)
  let has_chapters := hasTimestampPattern description.data
  let desc_score := 60 + (if has_links then 20 else 0) + (if has_chapters then 20 else 0)
  let note :=
    if has_links ∧ has_chapters then "has links, has chapters/timestamps"
    else if has_links then "has links"
    else if has_chapters then "has chapters/timestamps"
    else "no links or timestamps detected"
  ⟨min desc_score 100,
   if 90 ≤ desc_score then "great" else if 70 ≤ desc_score then "good" else "ok",
   note⟩

/-- The five checks of get_video_seo_score, keys in construction order. -/
def seoChecks (title description : String) (tags : List String) (thumbnail : String) :
    List (String × SeoCheck) :=
  [("title_length", title_length_check title),
   ("description_length", description_length_check description),
   ("tag_count", tag_count_check tags),
   ("thumbnail", thumbnail_check thumbnail),
   ("description_quality", description_quality_check description)]

/-- The overall score of get_video_seo_score:
round(sum(scores) / len(checks)). -/
def seoOverall (checks : List (String × SeoCheck)) : ℤ :=
  roundHalfEven ((checks.map fun c => ((c.2.score : ℚ))).sum / checks.length)

/-- Result shape of get_video_seo_score. -/
structure SeoResult where
  video_id : String
  title : String
  overall_score : ℤ
  checks : List (String × SeoCheck)
deriving DecidableEq

/-- Embeds get_video_seo_score of main.py. -/
def get_video_seo_score (env : Env) (video_id : String) : Except Err SeoResult :=
  match env.videosByIds [video_id] with
  | [] => .error .notFound
  | item :: _ =>
    let title := item.title.getD ""
    let description := item.description.getD ""
    let tags := item.tags.getD []
    let thumbnail := thumbnail_url item.thumbnails
    let checks := seoChecks title description tags thumbnail
    .ok { video_id := video_id
          title := title
          overall_score := seoOverall checks
          checks := checks }

/-! ## get_engagement_stats -/

/-- Per-video record of get_engagement_stats. -/
structure EngagementVideoRec where
  video_id : String
  title : String
  views : ℤ
  likes : ℤ
  comments : ℤ
  like_rate_pct : ℚ
  comment_rate_pct : ℚ
  engagement_rate_pct : ℚ
deriving DecidableEq

/-- Embeds the enrichment loop of get_engagement_stats. -/
def enrichEngagement (v : VideoRec) : EngagementVideoRec :=
  { video_id := v.video_id
    title := v.title
    views := v.views
    likes := v.likes
    comments := v.comments
    like_rate_pct := safe_float (if 0 < v.views then (v.likes : ℚ) / v.views * 100 else 0) 4
    comment_rate_pct :=
      safe_float (if 0 < v.views then (v.comments : ℚ) / v.views * 100 else 0) 4
    engagement_rate_pct := engagementRate v.views v.likes v.comments }

/-- The top engaging video summary of get_engagement_stats. -/
structure TopEngagingVideo where
  video_id : String
  title : String
  engagement_rate_pct : ℚ
deriving DecidableEq

/-- Result shape of get_engagement_stats. -/
structure EngagementStatsResult where
  total_videos_analyzed : ℕ
  avg_views : ℚ
  avg_likes : ℚ
  avg_comments : ℚ
  avg_like_rate_pct : ℚ
  avg_comment_rate_pct : ℚ
  avg_engagement_rate_pct : ℚ
  top_engaging_video : TopEngagingVideo
  videos : List EngagementVideoRec
deriving DecidableEq

/-- Embeds the pure tail of get_engagement_stats over the aggregated video
list; the max over the enriched list is the Python max builtin, whose empty
case cannot be reached because the empty list failed earlier. -/
def engagement_stats_of (videos : List VideoRec) : Except Err EngagementStatsResult :=
  if videos = [] then .error .invalidInput
  else
    let enriched := videos.map enrichEngagement
    let n : ℚ := enriched.length
    match pyMaxBy (fun v => v.engagement_rate_pct) enriched with
    | none => .error .invalidInput
    | some top =>
      .ok { total_videos_analyzed := enriched.length
            avg_views := safe_float ((enriched.map fun v => (v.views : ℚ)).sum / n) 0
            avg_likes := safe_float ((enriched.map fun v => (v.likes : ℚ)).sum / n) 0
            avg_comments := safe_float ((enriched.map fun v => (v.comments : ℚ)).sum / n) 0
            avg_like_rate_pct := safe_float ((enriched.map fun v => v.like_rate_pct).sum / n) 4
            avg_comment_rate_pct :=
              safe_float ((enriched.map fun v => v.comment_rate_pct).sum / n) 4
            avg_engagement_rate_pct :=
              safe_float ((enriched.map fun v => v.engagement_rate_pct).sum / n) 4
            top_engaging_video :=
              { video_id := top.video_id
                title := top.title
                engagement_rate_pct := top.engagement_rate_pct }
            videos := enriched }

/-- Embeds get_engagement_stats of main.py: the aggregator then the pure
tail. -/
def get_engagement_stats (env : Env) (channel_url : String) (limit fuel : ℕ) :
    Option (Except Err EngagementStatsResult) :=
  (fetch_videos_for_channel env channel_url limit fuel).map fun r =>
    r.bind engagement_stats_of

/-! ## Concrete environments and inputs for witnesses and counterexamples -/

/-- Baseline environment: every endpoint returns nothing. -/
def env0 : Env :=
  { handleItems := fun _ => []
    channelUploads := fun _ => []
    playlistPages := fun _ _ => ⟨[], none⟩
    videosByIds := fun _ => []
    channelStats := fun _ => []
    channelTopicItems := fun _ => []
    videoCommentStats := fun _ => []
    videoCommentPages := fun _ _ => ⟨[], none⟩
    fromisoformat := fun _ => none
    sqrtApprox := fun q => q }

/-- Raw video with 100 views and no likes or comments. -/
def rawVideoA : RawVideo :=
  { id := "a", title := none, description := none, tags := none,
    publishedAt := none, duration := none, viewCount := some 100,
    likeCount := some 0, commentCount := some 0, thumbnails := fun _ => none }

/-- Environment whose batch video lookup returns exactly rawVideoA. -/
def envC1 : Env := { env0 with videosByIds := fun _ => [rawVideoA] }

/-- The compare_videos result on envC1 with input ["a"]. -/
def c3res : CompareVideosResult :=
  ⟨[⟨"a", "", "", 0, 100, 0, 0, 0⟩], "a", "a", "a", "a"⟩

/-- A playlist response stream of non-empty pages that always carries a
continuation token. -/
def constPlaylistPages : ℕ → RawPage RawPlaylistItem := fun _ => ⟨[⟨some "x"⟩], some "t"⟩

/-- A playlist response stream of empty pages that always carries a
continuation token. -/
def badPlaylistPages : ℕ → RawPage RawPlaylistItem := fun _ => ⟨[], some "t"⟩

/-- Raw video a with 5 views. -/
def rawVideoB5 : RawVideo :=
  { id := "a", title := none, description := none, tags := none,
    publishedAt := none, duration := none, viewCount := some 5,
    likeCount := none, commentCount := none, thumbnails := fun _ => none }

/-- Raw video b with 7 views. -/
def rawVideoB7 : RawVideo :=
  { id := "b", title := none, description := none, tags := none,
    publishedAt := none, duration := none, viewCount := some 7,
    likeCount := none, commentCount := none, thumbnails := fun _ => none }

/-- Environment with one channel, one playlist page of two videos. -/
def envC2 : Env :=
  { env0 with
    channelUploads := fun _ => ["pl"]
    playlistPages := fun _ _ => ⟨[⟨some "a"⟩, ⟨some "b"⟩], none⟩
    videosByIds := fun _ => [rawVideoB5, rawVideoB7] }

/-- The aggregator output on envC2. -/
def c2videos : List VideoRec :=
  [⟨"a", "", "", [], "", 0, 5, 0, 0, ""⟩, ⟨"b", "", "", [], "", 0, 7, 0, 0, ""⟩]

/-- The get_top_videos output on envC2 with metric views and limit 1. -/
def c2res : List TopVideoRec := [⟨1, "b", "", "", 0, 7, 0, 0, 0⟩]

/-- Raw video a published at ta. -/
def rawVideoT1 : RawVideo :=
  { id := "a", title := none, description := none, tags := none,
    publishedAt := some "ta", duration := none, viewCount := none,
    likeCount := none, commentCount := none, thumbnails := fun _ => none }

/-- Raw video b published at tb. -/
def rawVideoT2 : RawVideo :=
  { id := "b", title := none, description := none, tags := none,
    publishedAt := some "tb", duration := none, viewCount := none,
    likeCount := none, commentCount := none, thumbnails := fun _ => none }

/-- Environment with two videos whose timestamps parse three days apart. -/
def envC9 : Env :=
  { env0 with
    channelUploads := fun _ => ["pl"]
    playlistPages := fun _ _ => ⟨[⟨some "a"⟩, ⟨some "b"⟩], none⟩
    videosByIds := fun _ => [rawVideoT1, rawVideoT2]
    fromisoformat := fun s =>
      if s = "ta" then some ⟨0, 0, 0⟩
      else if s = "tb" then some ⟨259200, 0, 0⟩ else none }

/-- The aggregator output on envC9. -/
def c9videos : List VideoRec :=
  [⟨"a", "", "", [], "ta", 0, 0, 0, 0, ""⟩, ⟨"b", "", "", [], "tb", 0, 0, 0, 0, ""⟩]

/-- The upload schedule on envC9. -/
def c9res : ScheduleResult :=
  ⟨2, 3, 0, [("Monday", 2)], [("00", 2)], "Monday", "00:00 UTC"⟩

/-- The upload schedule on envC2, whose timestamps never parse. -/
def c6res : ScheduleResult := ⟨2, 0, 0, [], [], "", ""⟩

/-- A 50-character title. -/
def c7title : String := "aaaaaaaaaaaaaaaaaaaaaaaaaaaaaaaaaaaaaaaaaaaaaaaaaa"

/-- Raw video with the 50-character title and nothing else. -/
def rawVideoSeo : RawVideo :=
  { id := "v", title := some c7title, description := none, tags := none,
    publishedAt := none, duration := none, viewCount := none,
    likeCount := none, commentCount := none, thumbnails := fun _ => none }

/-- Environment whose video lookup returns rawVideoSeo. -/
def envC7 : Env := { env0 with videosByIds := fun _ => [rawVideoSeo] }

/-- The SEO result on envC7. -/
def c7res : SeoResult :=
  ⟨"v", c7title, 34,
   [("title_length", ⟨100, "great", "50 chars (ideal: 40–70)"⟩),
    ("description_length", ⟨10, "poor", "0 chars (missing or very short)"⟩),
    ("tag_count", ⟨0, "poor", "No tags found"⟩),
    ("thumbnail", ⟨0, "poor", "No thumbnail found"⟩),
    ("description_quality", ⟨60, "ok", "no links or timestamps detected"⟩)]⟩

/-- Environment whose topic lookup returns a category URL with an extra path
segment after the wiki marker. -/
def envC5 : Env :=
  { env0 with channelTopicItems :=
      fun _ => [⟨none, some ["https://en.wikipedia.org/wiki/A/B"]⟩] }

/-! ## Helper lemmas: rounding -/

theorem ratFloor_eq_intFloor (q : ℚ) : Rat.floor q = ⌊q⌋ := by
  rw [Rat.floor_def', Rat.floor_def]

theorem roundHalfEven_intCast (n : ℤ) : roundHalfEven (n : ℚ) = n := by
  simp [roundHalfEven, ratFloor_eq_intFloor]

theorem pyRound_zero (d : ℕ) : pyRound d 0 = 0 := by
  have h0 : roundHalfEven ((0 : ℤ) : ℚ) = 0 := roundHalfEven_intCast 0
  simp only [Int.cast_zero] at h0
  simp [pyRound, h0]

/-! ## Helper lemmas: pyMaxBy and mapM -/

theorem foldl_max_mem [LinearOrder γ] (key : α → γ) :
    ∀ (l : List α) (a : α),
      l.foldl (fun best y => if key best < key y then y else best) a ∈ a :: l := by
  intro l
  induction l with
  | nil => intro a; simp
  | cons y ys ih =>
    intro a
    simp only [List.foldl_cons]
    have h := ih (if key a < key y then y else a)
    rcases List.mem_cons.mp h with h1 | h1
    · rw [h1]
      by_cases hk : key a < key y <;> simp [hk]
    · exact List.mem_cons.mpr (Or.inr (List.mem_cons.mpr (Or.inr h1)))

theorem pyMaxBy_mem [LinearOrder γ] (key : α → γ) (l : List α) (x : α)
    (h : pyMaxBy key l = some x) : x ∈ l := by
  cases l with
  | nil => simp [pyMaxBy] at h
  | cons a rest =>
    simp only [pyMaxBy, Option.some.injEq] at h
    have := foldl_max_mem key rest a
    rw [h] at this
    exact this

theorem mapM_ok_mem (f : α → Except ε β) :
    ∀ (l : List α) (res : List β), l.mapM f = .ok res →
      ∀ b ∈ res, ∃ a ∈ l, f a = .ok b := by
  intro l
  induction l with
  | nil =>
    intro res h b hb
    simp only [List.mapM_nil, pure, Except.pure, Except.ok.injEq] at h
    subst h
    simp at hb
  | cons a rest ih =>
    intro res h b hb
    rw [List.mapM_cons] at h
    cases hfa : f a with
    | error e =>
      rw [hfa] at h
      simp [bind, Except.bind] at h
    | ok c =>
      rw [hfa] at h
      simp only [bind, Except.bind] at h
      cases hrest : rest.mapM f with
      | error e => rw [hrest] at h; simp [bind, Except.bind] at h
      | ok cs =>
        rw [hrest] at h
        simp only [bind, Except.bind, pure, Except.pure, Except.ok.injEq] at h
        subst h
        rcases List.mem_cons.mp hb with hb | hb
        · exact ⟨a, by simp, by rw [hfa, hb]⟩
        · rcases ih cs hrest b hb with ⟨a2, ha2, hfa2⟩
          exact ⟨a2, by simp [ha2], hfa2⟩

theorem mapM_ok_of_forall (f : α → Except ε β) :
    ∀ (l : List α), (∀ a ∈ l, ∃ b, f a = .ok b) →
      ∃ res, l.mapM f = .ok res := by
  intro l
  induction l with
  | nil => intro _; exact ⟨[], rfl⟩
  | cons a rest ih =>
    intro h
    rcases h a (by simp) with ⟨b, hb⟩
    rcases ih (fun x hx => h x (by simp [hx])) with ⟨res, hres⟩
    refine ⟨b :: res, ?_⟩
    rw [List.mapM_cons, hb]
    simp only [bind, Except.bind, hres, pure, Except.pure]

/-! ## Helper lemmas: sorting -/

theorem insertLe_length (le : α → α → Bool) (x : α) :
    ∀ l : List α, (insertLe le x l).length = l.length + 1 := by
  intro l
  induction l with
  | nil => rfl
  | cons y ys ih =>
    cases hb : le y x with
    | true => simp [insertLe, hb, ih]
    | false => simp [insertLe, hb]

theorem insertLe_mem (le : α → α → Bool) (x a : α) :
    ∀ l : List α, a ∈ insertLe le x l ↔ a = x ∨ a ∈ l := by
  intro l
  induction l with
  | nil => simp [insertLe]
  | cons y ys ih =>
    cases hb : le y x with
    | true =>
      simp only [insertLe, hb, if_true, List.mem_cons, ih]
      tauto
    | false =>
      simp only [insertLe, hb, Bool.false_eq_true, if_false, List.mem_cons]

theorem pySorted_foldl_length (le : α → α → Bool) :
    ∀ (l : List α) (acc : List α),
      (l.foldl (fun acc x => insertLe le x acc) acc).length = acc.length + l.length := by
  intro l
  induction l with
  | nil => intro acc; simp
  | cons x xs ih =>
    intro acc
    simp only [List.foldl_cons]
    rw [ih, insertLe_length]
    simp only [List.length_cons]
    omega

theorem pySorted_length (le : α → α → Bool) (l : List α) :
    (pySorted le l).length = l.length := by
  unfold pySorted
  rw [pySorted_foldl_length]
  simp

theorem pySorted_foldl_mem (le : α → α → Bool) (a : α) :
    ∀ (l : List α) (acc : List α),
      a ∈ l.foldl (fun acc x => insertLe le x acc) acc ↔ a ∈ acc ∨ a ∈ l := by
  intro l
  induction l with
  | nil => intro acc; simp
  | cons x xs ih =>
    intro acc
    simp only [List.foldl_cons]
    rw [ih, insertLe_mem]
    simp only [List.mem_cons]
    tauto

theorem pySorted_mem (le : α → α → Bool) (l : List α) (a : α) :
    a ∈ pySorted le l ↔ a ∈ l := by
  unfold pySorted
  rw [pySorted_foldl_mem]
  simp

theorem insertLe_pairwise (r : α → α → Prop) [DecidableRel r]
    (htrans : ∀ a b c, r a b → r b c → r a c) (htotal : ∀ a b, r a b ∨ r b a)
    (x : α) :
    ∀ l : List α, List.Pairwise r l →
      List.Pairwise r (insertLe (fun a b => decide (r a b)) x l) := by
  intro l
  induction l with
  | nil => intro _; simp [insertLe]
  | cons y ys ih =>
    intro h
    rcases List.pairwise_cons.mp h with ⟨hy, hys⟩
    by_cases hle : r y x
    · have hb : (decide (r y x)) = true := decide_eq_true hle
      rw [show insertLe (fun a b => decide (r a b)) x (y :: ys) =
          y :: insertLe (fun a b => decide (r a b)) x ys from by simp [insertLe, hb]]
      refine List.pairwise_cons.mpr ⟨?_, ih hys⟩
      intro z hz
      rcases (insertLe_mem _ x z ys).mp hz with hz | hz
      · rw [hz]; exact hle
      · exact hy z hz
    · have hb : (decide (r y x)) = false := decide_eq_false hle
      rw [show insertLe (fun a b => decide (r a b)) x (y :: ys) = x :: y :: ys from by
        simp [insertLe, hb]]
      have hxy : r x y := by
        rcases htotal x y with h1 | h1
        · exact h1
        · exact absurd h1 hle
      refine List.pairwise_cons.mpr ⟨?_, h⟩
      intro z hz
      rcases List.mem_cons.mp hz with hz | hz
      · rw [hz]; exact hxy
      · exact htrans x y z hxy (hy z hz)

theorem pySorted_foldl_pairwise (r : α → α → Prop) [DecidableRel r]
    (htrans : ∀ a b c, r a b → r b c → r a c) (htotal : ∀ a b, r a b ∨ r b a) :
    ∀ (l : List α) (acc : List α), List.Pairwise r acc →
      List.Pairwise r (l.foldl (fun acc x => insertLe (fun a b => decide (r a b)) x acc) acc) := by
  intro l
  induction l with
  | nil => intro acc h; exact h
  | cons x xs ih =>
    intro acc h
    simp only [List.foldl_cons]
    exact ih _ (insertLe_pairwise r htrans htotal x acc h)

theorem pySorted_pairwise (r : α → α → Prop) [DecidableRel r]
    (htrans : ∀ a b c, r a b → r b c → r a c) (htotal : ∀ a b, r a b ∨ r b a)
    (l : List α) :
    List.Pairwise r (pySorted (fun a b => decide (r a b)) l) :=
  pySorted_foldl_pairwise r htrans htotal l [] (by simp)

/-! ## Helper lemmas: inversions of the tool results -/

theorem compare_videos_ok {env : Env} {ids : List String} {r : CompareVideosResult}
    (h : compare_videos env ids = .ok r) :
    r.videos = (env.videosByIds (ids.take 10)).map mkCompareVideoRec := by
  unfold compare_videos at h
  split at h
  · exact absurd h (by simp)
  · cases h
    rfl

theorem top_videos_of_ok {videos : List VideoRec} {metric : String} {limit : ℕ}
    {r : List TopVideoRec} (h : top_videos_of videos metric limit = .ok r) :
    r = withRanks 0
      ((pySorted (fun a b => metricKey metric b ≤ metricKey metric a)
        (videos.map enrich)).take limit) := by
  unfold top_videos_of at h
  split at h
  · exact absurd h (by simp)
  · cases h
    rfl

theorem get_top_videos_ok {env : Env} {url metric : String} {limit fuel : ℕ}
    {r : List TopVideoRec} (h : get_top_videos env url metric limit fuel = some (.ok r)) :
    ∃ videos, fetch_videos_for_channel env url 200 fuel = some (.ok videos) ∧
      top_videos_of videos metric limit = .ok r := by
  unfold get_top_videos at h
  split at h
  · simp at h
  · cases hf : fetch_videos_for_channel env url 200 fuel with
    | none => rw [hf] at h; simp at h
    | some res =>
      rw [hf] at h
      cases res with
      | error e => simp [Except.bind] at h
      | ok videos =>
        simp only [Option.map, Option.some.injEq] at h
        exact ⟨videos, rfl, h⟩

theorem engagement_stats_of_ok {videos : List VideoRec} {r : EngagementStatsResult}
    (h : engagement_stats_of videos = .ok r) :
    r.videos = videos.map enrichEngagement := by
  unfold engagement_stats_of at h
  split at h
  · exact absurd h (by simp)
  · dsimp only at h
    cases hmax : pyMaxBy (fun v => v.engagement_rate_pct) (videos.map enrichEngagement) with
    | none => rw [hmax] at h; simp at h
    | some top => rw [hmax] at h; cases h; rfl

theorem get_engagement_stats_ok {env : Env} {url : String} {limit fuel : ℕ}
    {r : EngagementStatsResult}
    (h : get_engagement_stats env url limit fuel = some (.ok r)) :
    ∃ videos, fetch_videos_for_channel env url limit fuel = some (.ok videos) ∧
      engagement_stats_of videos = .ok r := by
  unfold get_engagement_stats at h
  cases hf : fetch_videos_for_channel env url limit fuel with
  | none => rw [hf] at h; simp at h
  | some res =>
    rw [hf] at h
    cases res with
    | error e => simp [Except.bind] at h
    | ok videos =>
      simp only [Option.map, Option.some.injEq] at h
      exact ⟨videos, rfl, h⟩

theorem get_upload_schedule_ok {env : Env} {url : String} {limit fuel : ℕ}
    {r : ScheduleResult}
    (h : get_upload_schedule env url limit fuel = some (.ok r)) :
    ∃ videos, fetch_videos_for_channel env url limit fuel = some (.ok videos) ∧
      upload_schedule_of env.fromisoformat env.sqrtApprox videos = .ok r := by
  unfold get_upload_schedule at h
  cases hf : fetch_videos_for_channel env url limit fuel with
  | none => rw [hf] at h; simp at h
  | some res =>
    rw [hf] at h
    cases res with
    | error e => simp [Except.bind] at h
    | ok videos =>
      simp only [Option.map, Option.some.injEq] at h
      exact ⟨videos, rfl, h⟩

/-! ## Helper lemmas: get_top_videos records -/

theorem withRanks_mem :
    ∀ (l : List EnrichedVideo) (i : ℕ) (t : TopVideoRec), t ∈ withRanks i l →
      ∃ e ∈ l, t.views = e.base.views ∧ t.likes = e.base.likes ∧
        t.comments = e.base.comments ∧ t.engagement_rate_pct = e.engagement_rate_pct := by
  intro l
  induction l with
  | nil => intro i t ht; simp [withRanks] at ht
  | cons v rest ih =>
    intro i t ht
    rcases List.mem_cons.mp ht with h1 | h1
    · exact ⟨v, by simp, by rw [h1], by rw [h1], by rw [h1], by rw [h1]⟩
    · rcases ih (i + 1) t h1 with ⟨e, he, h2⟩
      exact ⟨e, List.mem_cons.mpr (Or.inr he), h2⟩

theorem enrich_engagement {x : EnrichedVideo} {videos : List VideoRec}
    (hx : x ∈ videos.map enrich) :
    x.engagement_rate_pct = engagementRate x.base.views x.base.likes x.base.comments := by
  rcases List.mem_map.mp hx with ⟨v, _, rfl⟩
  rfl

/-! ## Claim C1 -/

/-- C1 (amended): for every video record the computed engagement rate is 0
whenever views = 0, and for views > 0 it equals (likes + comments) / views *
100 rounded to 4 decimal places, so it can also be 0 for positive views when
likes + comments is zero or negligible; the engagement_rate_pct field produced
by compare_videos, get_top_videos and get_engagement_stats is exactly this
function of the record counts. -/
theorem C1_engagement_rate :
    (∀ views likes comments : ℤ,
      (views = 0 → engagementRate views likes comments = 0) ∧
      (0 < views → engagementRate views likes comments =
        pyRound 4 (((likes : ℚ) + comments) / views * 100))) ∧
    (∀ env ids r, compare_videos env ids = .ok r → ∀ v ∈ r.videos,
      v.engagement_rate_pct = engagementRate v.views v.likes v.comments) ∧
    (∀ env url metric limit fuel r,
      get_top_videos env url metric limit fuel = some (.ok r) → ∀ v ∈ r,
        v.engagement_rate_pct = engagementRate v.views v.likes v.comments) ∧
    (∀ env url limit fuel r,
      get_engagement_stats env url limit fuel = some (.ok r) → ∀ v ∈ r.videos,
        v.engagement_rate_pct = engagementRate v.views v.likes v.comments) := by
  refine ⟨?_, ?_, ?_, ?_⟩
  · intro views likes comments
    constructor
    · intro h
      subst h
      simp [engagementRate, safe_float, pyRound_zero]
    · intro h
      simp [engagementRate, safe_float, if_pos h]
  · intro env ids r h v hv
    rw [compare_videos_ok h] at hv
    rcases List.mem_map.mp hv with ⟨item, _, rfl⟩
    rfl
  · intro env url metric limit fuel r h v hv
    rcases get_top_videos_ok h with ⟨videos, _, ht⟩
    rw [top_videos_of_ok ht] at hv
    rcases withRanks_mem _ _ _ hv with ⟨e, he, h1, h2, h3, h4⟩
    have he2 : e ∈ pySorted (fun a b => metricKey metric b ≤ metricKey metric a)
        (videos.map enrich) :=
      (List.take_sublist _ _).subset he
    have he3 : e ∈ videos.map enrich := (pySorted_mem _ _ _).mp he2
    rw [h1, h2, h3, h4]
    exact enrich_engagement he3
  · intro env url limit fuel r h v hv
    rcases get_engagement_stats_ok h with ⟨videos, _, hs⟩
    rw [engagement_stats_of_ok hs] at hv
    rcases List.mem_map.mp hv with ⟨v0, _, rfl⟩
    rfl

/-- Witness for C1: a concrete positive-view record where the rate equals the
rounded formula. -/
theorem C1_engagement_rate_witness :
    (0 : ℤ) < 5 ∧ engagementRate 5 1 0 = pyRound 4 (((1 : ℚ) + 0) / 5 * 100) :=
  ⟨by decide, (C1_engagement_rate.1 5 1 0).2 (by decide)⟩

unseal Rat.mul Rat.add Rat.inv Rat.sub in
/-- Counterexample for C1 as stated: compare_videos produces a record with
views = 100 and engagement rate 0, so the rate is not 0 exactly when views =
0. -/
theorem C1_counterexample :
    (compare_videos envC1 ["a"]).map
        (fun r => r.videos.map fun v => (v.views, v.engagement_rate_pct)) =
      .ok [((100 : ℤ), (0 : ℚ))] ∧ (100 : ℤ) ≠ 0 := by
  constructor
  · decide
  · decide

/-! ## Claim C8 -/

/-- C8: get_channel_videos returns exactly the aggregator records in the same
order, each with only the tags entry removed and every other field unchanged
and in construction order. -/
theorem C8_strip_tags :
    ∀ (env : Env) (channel_url : String) (limit fuel : ℕ),
      get_channel_videos env channel_url limit fuel =
        (fetch_videos_for_channel env channel_url limit fuel).map
          (Except.map (List.map fun v =>
            [("video_id", FieldVal.s v.video_id), ("title", FieldVal.s v.title),
             ("description", FieldVal.s v.description),
             ("published_at", FieldVal.s v.published_at),
             ("duration_seconds", FieldVal.d v.duration_seconds),
             ("views", FieldVal.n v.views), ("likes", FieldVal.n v.likes),
             ("comments", FieldVal.n v.comments),
             ("thumbnail_url", FieldVal.s v.thumbnail_url)])) := by
  intro env url limit fuel
  rfl

/-! ## Helper lemmas: compare winners -/

theorem mapM_ok_length (f : α → Except ε β) :
    ∀ (l : List α) (res : List β), l.mapM f = .ok res → res.length = l.length := by
  intro l
  induction l with
  | nil =>
    intro res h
    have : res = [] := by
      have h2 : (Except.ok [] : Except ε (List β)) = .ok res := h ▸ rfl
      cases h2
      rfl
    simp [this]
  | cons a rest ih =>
    intro res h
    rw [List.mapM_cons] at h
    cases hfa : f a with
    | error e => rw [hfa] at h; simp [bind, Except.bind] at h
    | ok c =>
      rw [hfa] at h
      simp only [bind, Except.bind] at h
      cases hrest : rest.mapM f with
      | error e => rw [hrest] at h; simp [bind, Except.bind] at h
      | ok cs =>
        rw [hrest] at h
        simp only [bind, Except.bind, pure, Except.pure, Except.ok.injEq] at h
        subst h
        simp [ih cs hrest]

theorem compare_videos_ok_eq {env : Env} {ids : List String} {r : CompareVideosResult}
    (h : compare_videos env ids = .ok r) :
    r = ⟨(env.videosByIds (ids.take 10)).map mkCompareVideoRec,
      videoWinner (fun v => (v.views : ℚ))
        ((env.videosByIds (ids.take 10)).map mkCompareVideoRec),
      videoWinner (fun v => (v.likes : ℚ))
        ((env.videosByIds (ids.take 10)).map mkCompareVideoRec),
      videoWinner (fun v => (v.comments : ℚ))
        ((env.videosByIds (ids.take 10)).map mkCompareVideoRec),
      videoWinner (fun v => v.engagement_rate_pct)
        ((env.videosByIds (ids.take 10)).map mkCompareVideoRec)⟩ := by
  unfold compare_videos at h
  split at h
  · exact absurd h (by simp)
  · cases h
    rfl

theorem videoWinner_mem (key : CompareVideoRec → ℚ) (vids : List CompareVideoRec)
    (h : vids ≠ []) : ∃ v ∈ vids, videoWinner key vids = v.video_id := by
  cases vids with
  | nil => exact absurd rfl h
  | cons a rest =>
    have hmax : pyMaxBy key (a :: rest) = some
        (rest.foldl (fun best y => if key best < key y then y else best) a) := rfl
    refine ⟨rest.foldl (fun best y => if key best < key y then y else best) a,
      pyMaxBy_mem key _ _ hmax, ?_⟩
    simp [videoWinner, hmax]

theorem channelWinner_mem (key : ChannelOverview → ℤ) (channels : List ChannelOverview)
    (h : channels ≠ []) : ∃ c ∈ channels, channelWinner key channels = c.channel_id := by
  cases channels with
  | nil => exact absurd rfl h
  | cons a rest =>
    have hmax : pyMaxBy key (a :: rest) = some
        (rest.foldl (fun best y => if key best < key y then y else best) a) := rfl
    refine ⟨rest.foldl (fun best y => if key best < key y then y else best) a,
      pyMaxBy_mem key _ _ hmax, ?_⟩
    simp [channelWinner, hmax]

theorem compare_channels_ok_eq {env : Env} {urls : List String}
    {r : CompareChannelsResult} (h : compare_channels env urls = .ok r) :
    ∃ channels, (urls.take 5).mapM (get_channel_overview env) = .ok channels ∧
      r = ⟨channels, channelWinner (fun c => c.subscriber_count) channels,
        channelWinner (fun c => c.total_views) channels,
        channelWinner (fun c => c.total_videos) channels⟩ := by
  unfold compare_channels at h
  split at h
  · exact absurd h (by simp)
  · cases hm : (urls.take 5).mapM (get_channel_overview env) with
    | error e =>
      rw [show ((urls.take 5).mapM (get_channel_overview env) >>= fun channels =>
          pure ⟨channels, channelWinner (fun c => c.subscriber_count) channels,
            channelWinner (fun c => c.total_views) channels,
            channelWinner (fun c => c.total_videos) channels⟩) =
          (Except.error e : Except Err CompareChannelsResult) by
        rw [hm]; rfl] at h
      exact absurd h (by simp)
    | ok channels =>
      rw [show ((urls.take 5).mapM (get_channel_overview env) >>= fun channels =>
          pure (⟨channels, channelWinner (fun c => c.subscriber_count) channels,
            channelWinner (fun c => c.total_views) channels,
            channelWinner (fun c => c.total_videos) channels⟩ : CompareChannelsResult)) =
          .ok ⟨channels, channelWinner (fun c => c.subscriber_count) channels,
            channelWinner (fun c => c.total_views) channels,
            channelWinner (fun c => c.total_videos) channels⟩ by
        rw [hm]; rfl] at h
      cases h
      exact ⟨channels, rfl, rfl⟩

theorem take_five_ne_nil {urls : List String} (h : urls ≠ []) : urls.take 5 ≠ [] := by
  cases urls with
  | nil => exact absurd rfl h
  | cons a rest => simp

/-! ## Claim C3 -/

/-- C3 (amended): compare_videos fails with InvalidInput exactly on the empty
input list; compare_channels fails with InvalidInput exactly on the empty
input list provided each processed URL has a successful overview (a malformed
URL among the first five also raises InvalidInput); every compare_videos
winner on a non-empty upstream result set is the id of a returned record,
hence an id present in the input whenever the upstream returns only requested
ids, and is the empty string on an empty result set; every compare_channels
winner is the resolved channel id of one of the input URLs. -/
theorem C3_compare_invalid_input :
    (∀ (env : Env) (ids : List String),
      compare_videos env ids = .error .invalidInput ↔ ids = []) ∧
    (∀ (env : Env) (ids : List String) (r : CompareVideosResult),
      compare_videos env ids = .ok r → r.videos ≠ [] →
      (∀ item ∈ env.videosByIds (ids.take 10), item.id ∈ ids) →
      r.winner_by_views ∈ ids ∧ r.winner_by_likes ∈ ids ∧
        r.winner_by_comments ∈ ids ∧ r.winner_by_engagement_rate ∈ ids) ∧
    (∀ (env : Env) (ids : List String) (r : CompareVideosResult),
      compare_videos env ids = .ok r → r.videos = [] →
      r.winner_by_views = "" ∧ r.winner_by_likes = "" ∧
        r.winner_by_comments = "" ∧ r.winner_by_engagement_rate = "") ∧
    (∀ (env : Env) (urls : List String),
      (∀ u ∈ urls.take 5, ∃ c, get_channel_overview env u = .ok c) →
      (compare_channels env urls = .error .invalidInput ↔ urls = [])) ∧
    (∀ (env : Env) (urls : List String) (r : CompareChannelsResult),
      compare_channels env urls = .ok r →
      (∃ u ∈ urls, ∃ c, get_channel_overview env u = .ok c ∧
        c.channel_id = r.winner_by_subscribers) ∧
      (∃ u ∈ urls, ∃ c, get_channel_overview env u = .ok c ∧
        c.channel_id = r.winner_by_total_views) ∧
      (∃ u ∈ urls, ∃ c, get_channel_overview env u = .ok c ∧
        c.channel_id = r.winner_by_video_count)) := by
  refine ⟨?_, ?_, ?_, ?_, ?_⟩
  · intro env ids
    constructor
    · intro h
      by_contra hne
      unfold compare_videos at h
      rw [if_neg hne] at h
      simp at h
    · intro h
      subst h
      rfl
  · intro env ids r h hne hmem
    have heq := compare_videos_ok_eq h
    have hne2 : (env.videosByIds (ids.take 10)).map mkCompareVideoRec ≠ [] := by
      intro h0
      apply hne
      rw [heq]
      exact h0
    have main : ∀ key : CompareVideoRec → ℚ,
        videoWinner key ((env.videosByIds (ids.take 10)).map mkCompareVideoRec) ∈ ids := by
      intro key
      rcases videoWinner_mem key _ hne2 with ⟨v, hv, hw⟩
      rcases List.mem_map.mp hv with ⟨item, hitem, rfl⟩
      rw [hw]
      exact hmem item hitem
    rw [heq]
    exact ⟨main _, main _, main _, main _⟩
  · intro env ids r h hv0
    have heq := compare_videos_ok_eq h
    have hv : (env.videosByIds (ids.take 10)).map mkCompareVideoRec = [] := by
      rw [heq] at hv0
      exact hv0
    rw [heq]
    simp [hv, videoWinner, pyMaxBy]
  · intro env urls hok
    constructor
    · intro h
      by_contra hne
      rcases mapM_ok_of_forall (get_channel_overview env) (urls.take 5) hok with ⟨res, hres⟩
      unfold compare_channels at h
      rw [if_neg hne] at h
      rw [show ((urls.take 5).mapM (get_channel_overview env) >>= fun channels =>
          pure (⟨channels, channelWinner (fun c => c.subscriber_count) channels,
            channelWinner (fun c => c.total_views) channels,
            channelWinner (fun c => c.total_videos) channels⟩ : CompareChannelsResult)) =
          .ok ⟨res, channelWinner (fun c => c.subscriber_count) res,
            channelWinner (fun c => c.total_views) res,
            channelWinner (fun c => c.total_videos) res⟩ by
        rw [hres]; rfl] at h
      simp at h
    · intro h
      subst h
      rfl
  · intro env urls r h
    have hne : urls ≠ [] := by
      intro h0
      subst h0
      rw [show compare_channels env ([] : List String) = .error .invalidInput from rfl] at h
      simp at h
    rcases compare_channels_ok_eq h with ⟨channels, hm, heq⟩
    have hlen := mapM_ok_length (get_channel_overview env) _ _ hm
    have hcne : channels ≠ [] := by
      intro h0
      rw [h0] at hlen
      exact take_five_ne_nil hne (List.length_eq_zero.mp hlen.symm)
    have main : ∀ key : ChannelOverview → ℤ,
        ∃ u ∈ urls, ∃ c, get_channel_overview env u = .ok c ∧
          c.channel_id = channelWinner key channels := by
      intro key
      rcases channelWinner_mem key channels hcne with ⟨c, hc, hw⟩
      rcases mapM_ok_mem (get_channel_overview env) _ _ hm c hc with ⟨u, hu, hou⟩
      exact ⟨u, List.take_subset 5 urls hu, c, hou, hw.symm⟩
    rw [heq]
    exact ⟨main _, main _, main _⟩

unseal Rat.mul Rat.add Rat.inv Rat.sub in
/-- Witness for C3: the empty list fails with InvalidInput, and on a
one-video environment every winner is the input id. -/
theorem C3_compare_invalid_input_witness :
    compare_videos env0 ([] : List String) = .error .invalidInput ∧
    (c3res.winner_by_views ∈ ["a"] ∧ c3res.winner_by_likes ∈ ["a"] ∧
      c3res.winner_by_comments ∈ ["a"] ∧ c3res.winner_by_engagement_rate ∈ ["a"]) :=
  ⟨(C3_compare_invalid_input.1 env0 []).mpr rfl,
    C3_compare_invalid_input.2.1 envC1 ["a"] c3res (by decide) (by decide) (by decide)⟩

/-- Counterexample for C3 as stated: a non-empty compare_channels input with a
malformed URL fails with InvalidInput, and a non-empty compare_videos input
whose upstream lookup returns no records yields winners equal to the empty
string, which is not an id present in the input. -/
theorem C3_counterexample :
    (compare_channels env0 ["https://x/foo"] = .error .invalidInput ∧
      ("https://x/foo" :: ([] : List String)) ≠ []) ∧
    ((compare_videos env0 ["a"]).map (fun r => (r.winner_by_views, r.videos.length)) =
        .ok ("", 0) ∧ "" ∉ ["a"]) := by
  exact ⟨⟨by decide, by decide⟩, ⟨by decide, by decide⟩⟩

/-! ## Helper lemmas: pagination loop -/

theorem pageStep_done_iff (pages : ℕ → List β × Option String) (limit : ℕ)
    (s : LoopState β) :
    (∃ acc, pageStep pages limit s = .done acc) ↔
      (limit ≤ s.acc.length ∨ truthyTok (pages s.calls).2 = false ∨
        limit ≤ s.acc.length + (pages s.calls).1.length) := by
  by_cases h1 : limit ≤ s.acc.length
  · simp [pageStep, h1]
  · by_cases h2 : truthyTok (pages s.calls).2 = false ∨
        limit ≤ (s.acc ++ (pages s.calls).1).length
    · constructor
      · intro _
        rcases h2 with h2 | h2
        · exact Or.inr (Or.inl h2)
        · rw [List.length_append] at h2
          exact Or.inr (Or.inr h2)
      · intro _
        refine ⟨s.acc ++ (pages s.calls).1, ?_⟩
        simp only [pageStep, if_neg h1]
        rw [if_pos h2]
    · constructor
      · intro ⟨acc, hacc⟩
        simp only [pageStep, if_neg h1] at hacc
        rw [if_neg h2] at hacc
        cases hacc
      · intro h
        exfalso
        rw [List.length_append] at h2
        rcases h with h | h | h
        · exact h1 h
        · exact h2 (Or.inl h)
        · exact h2 (Or.inr h)

theorem pageLoop_isSome_of_progress (pages : ℕ → List β × Option String) (limit : ℕ)
    (hprog : ∀ i, (pages i).1 ≠ [] ∨ truthyTok (pages i).2 = false) :
    ∀ (fuel : ℕ) (s : LoopState β), limit - s.acc.length < fuel →
      (pageLoop pages limit fuel s).isSome := by
  intro fuel
  induction fuel with
  | zero => intro s h; exact absurd h (Nat.not_lt_zero _)
  | succ n ih =>
    intro s h
    rw [pageLoop]
    cases hstep : pageStep pages limit s with
    | done acc => simp
    | next s2 =>
      simp only
      apply ih
      unfold pageStep at hstep
      by_cases h1 : limit ≤ s.acc.length
      · rw [if_pos h1] at hstep; cases hstep
      · rw [if_neg h1] at hstep
        simp only at hstep
        by_cases h2 : truthyTok (pages s.calls).2 = false ∨
            limit ≤ (s.acc ++ (pages s.calls).1).length
        · rw [if_pos h2] at hstep; cases hstep
        · rw [if_neg h2] at hstep
          cases hstep
          push_neg at h2
          have hne : (pages s.calls).1 ≠ [] := by
            rcases hprog s.calls with hp | hp
            · exact hp
            · exact absurd hp h2.1
          have hpos : 0 < (pages s.calls).1.length := List.length_pos.mpr hne
          have hlt := h2.2
          simp only [List.length_append]
          rw [List.length_append] at hlt
          omega

theorem loopTerminates_of_progress (pages : ℕ → List β × Option String) (limit : ℕ)
    (hprog : ∀ i, (pages i).1 ≠ [] ∨ truthyTok (pages i).2 = false) :
    LoopTerminates pages limit := by
  refine ⟨limit + 1, ?_⟩
  unfold runPageLoop
  apply pageLoop_isSome_of_progress pages limit hprog
  simp only [List.length_nil]
  omega

theorem badLoop_none :
    ∀ (fuel : ℕ) (s : LoopState String), s.acc = [] →
      pageLoop (videoIdPages badPlaylistPages) 1 fuel s = none := by
  intro fuel
  induction fuel with
  | zero => intro s _; rfl
  | succ n ih =>
    intro s h
    rw [pageLoop]
    have hstep : pageStep (videoIdPages badPlaylistPages) 1 s =
        .next ⟨[], some "t", s.calls + 1⟩ := by
      unfold pageStep
      rw [if_neg (by simp [h])]
      simp [videoIdPages, badPlaylistPages, playlistPageItems, truthyTok, h]
    rw [hstep]
    exact ih _ rfl

/-! ## Claim C4 -/

/-- C4 (amended): both pagination loops break exactly when an iteration sees
a falsy next-page token or the accumulated items reach the limit, a returned
token with the limit already met also stopping the loop; they terminate
whenever every response contributes at least one item or carries no
continuation token, but an unbounded stream of item-less pages with tokens
loops forever. -/
theorem C4_pagination :
    (∀ (β : Type) (pages : ℕ → List β × Option String) (limit : ℕ) (s : LoopState β),
      (∃ acc, pageStep pages limit s = .done acc) ↔
        (limit ≤ s.acc.length ∨ truthyTok (pages s.calls).2 = false ∨
          limit ≤ s.acc.length + (pages s.calls).1.length)) ∧
    (∀ (raw : ℕ → RawPage RawPlaylistItem) (limit : ℕ),
      (∀ i, playlistPageItems (raw i) ≠ [] ∨ truthyTok (raw i).nextPageToken = false) →
      LoopTerminates (videoIdPages raw) limit) ∧
    (∀ (raw : ℕ → RawPage RawComment) (limit : ℕ),
      (∀ i, (raw i).items ≠ [] ∨ truthyTok (raw i).nextPageToken = false) →
      LoopTerminates (commentPagesOf raw) limit) := by
  refine ⟨fun β => pageStep_done_iff, ?_, ?_⟩
  · intro raw limit hprog
    apply loopTerminates_of_progress
    intro i
    exact hprog i
  · intro raw limit hprog
    apply loopTerminates_of_progress
    intro i
    rcases hprog i with hp | hp
    · left
      simp [commentPagesOf, hp]
    · right
      exact hp

/-- Witness for C4: a constant one-item-per-page stream terminates at limit
2. -/
theorem C4_pagination_witness :
    LoopTerminates (videoIdPages constPlaylistPages) 2 :=
  C4_pagination.2.1 constPlaylistPages 2 (fun i => Or.inl (by
    show playlistPageItems ⟨[⟨some "x"⟩], some "t"⟩ ≠ []
    decide))

/-- Counterexample for C4 as stated: on the response stream of item-less
pages that always return a token, the video-id pagination loop never
terminates. -/
theorem C4_counterexample : ¬ LoopTerminates (videoIdPages badPlaylistPages) 1 := by
  rintro ⟨fuel, hf⟩
  rw [runPageLoop, badLoop_none fuel ⟨[], none, 0⟩ rfl] at hf
  simp at hf

/-! ## Helper lemmas: ranks -/

theorem withRanks_length : ∀ (l : List EnrichedVideo) (i : ℕ),
    (withRanks i l).length = l.length := by
  intro l
  induction l with
  | nil => intro i; rfl
  | cons v rest ih => intro i; simp [withRanks, ih]

theorem withRanks_map_rank : ∀ (l : List EnrichedVideo) (i : ℕ),
    (withRanks i l).map (fun t => t.rank) = List.range' (i + 1) l.length := by
  intro l
  induction l with
  | nil => intro i; rfl
  | cons v rest ih =>
    intro i
    simp only [withRanks, List.map_cons, List.length_cons, List.range'_succ]
    rw [ih (i + 1)]

theorem withRanks_map_key (metric : String) : ∀ (l : List EnrichedVideo) (i : ℕ),
    (withRanks i l).map (metricKeyOut metric) = l.map (metricKey metric) := by
  intro l
  induction l with
  | nil => intro i; rfl
  | cons v rest ih =>
    intro i
    simp only [withRanks, List.map_cons]
    rw [ih (i + 1)]
    congr 1

/-! ## Claim C2 -/

/-- C2: for every channel URL, valid metric and limit, the get_top_videos
output over the 200-video aggregator window is sorted non-increasing by the
selected metric, its rank fields are exactly 1..len(result) in order with no
gaps, and its length is the limit truncation of the scanned window. -/
theorem C2_top_videos_sorted :
    ∀ (env : Env) (url metric : String) (limit fuel : ℕ) (videos : List VideoRec)
      (r : List TopVideoRec),
      metric ∈ valid_metrics →
      fetch_videos_for_channel env url 200 fuel = some (.ok videos) →
      get_top_videos env url metric limit fuel = some (.ok r) →
      List.Pairwise (fun a b => metricKeyOut metric b ≤ metricKeyOut metric a) r ∧
      r.map (fun t => t.rank) = List.range' 1 r.length ∧
      r.length = min limit videos.length := by
  intro env url metric limit fuel videos r _ hfetch htop
  rcases get_top_videos_ok htop with ⟨videos2, hfetch2, ht⟩
  rw [hfetch] at hfetch2
  have hv : videos2 = videos := by
    cases hfetch2
    rfl
  subst hv
  have heq := top_videos_of_ok ht
  set trunc := (pySorted (fun a b => metricKey metric b ≤ metricKey metric a)
    (videos2.map enrich)).take limit with htrunc
  have hsorted : List.Pairwise
      (fun a b => metricKey metric b ≤ metricKey metric a)
      (pySorted (fun a b => decide (metricKey metric b ≤ metricKey metric a))
        (videos2.map enrich)) :=
    pySorted_pairwise (fun a b => metricKey metric b ≤ metricKey metric a)
      (fun a b c hab hbc => le_trans hbc hab)
      (fun a b => (le_total (metricKey metric a) (metricKey metric b)).symm)
      (videos2.map enrich)
  have htsorted : List.Pairwise
      (fun a b => metricKey metric b ≤ metricKey metric a) trunc :=
    List.Pairwise.sublist (List.take_sublist _ _) hsorted
  refine ⟨?_, ?_, ?_⟩
  · have h2 : List.Pairwise (fun x y : ℚ => y ≤ x) (trunc.map (metricKey metric)) :=
      List.pairwise_map.mpr htsorted
    rw [← withRanks_map_key metric trunc 0] at h2
    rw [heq]
    exact List.pairwise_map.mp h2
  · rw [heq, withRanks_map_rank, withRanks_length]
  · rw [heq, withRanks_length, htrunc, List.length_take, pySorted_length,
      List.length_map]

unseal Rat.mul Rat.add Rat.inv Rat.sub in
/-- Witness for C2 on a concrete two-video channel with metric views and
limit 1. -/
theorem C2_top_videos_sorted_witness :
    List.Pairwise (fun a b => metricKeyOut "views" b ≤ metricKeyOut "views" a) c2res ∧
    c2res.map (fun t => t.rank) = List.range' 1 c2res.length ∧
    c2res.length = min 1 (c2videos.length) :=
  C2_top_videos_sorted envC2 "https://www.youtube.com/channel/UC1" "views" 1 1
    c2videos c2res (by decide) (by decide) (by decide)

/-! ## Helper lemmas: upload schedule -/

theorem schedBuckets_foldl_timestamps (parse : String → Option PyDateTime) :
    ∀ (videos : List VideoRec) (st : SchedState),
      (videos.foldl (schedStep parse) st).timestamps =
        st.timestamps ++ videos.filterMap (fun v => parse v.published_at) := by
  intro videos
  induction videos with
  | nil => intro st; simp
  | cons v vs ih =>
    intro st
    simp only [List.foldl_cons]
    rw [ih]
    cases hp : parse v.published_at with
    | none => simp [schedStep, hp]
    | some dt => simp [schedStep, hp]

theorem schedBuckets_timestamps (parse : String → Option PyDateTime)
    (videos : List VideoRec) :
    (schedBuckets parse videos).timestamps =
      videos.filterMap (fun v => parse v.published_at) := by
  unfold schedBuckets
  rw [schedBuckets_foldl_timestamps]
  rfl

theorem pySorted_pair (le : α → α → Bool) (a b : α) :
    pySorted le [a, b] = if le a b then [a, b] else [b, a] := by
  cases hb : le a b <;> simp [pySorted, insertLe, hb]

theorem upload_schedule_of_ne_nil {parse : String → Option PyDateTime}
    {sqrtA : ℚ → ℚ} {videos : List VideoRec} {r : ScheduleResult}
    (h : upload_schedule_of parse sqrtA videos = .ok r) : videos ≠ [] := by
  intro h0
  subst h0
  simp [upload_schedule_of] at h

theorem upload_schedule_of_fields {parse : String → Option PyDateTime}
    {sqrtA : ℚ → ℚ} {videos : List VideoRec} {r : ScheduleResult}
    (h : upload_schedule_of parse sqrtA videos = .ok r) :
    r.avg_days_between_uploads = (scheduleStats sqrtA (schedBuckets parse videos).timestamps).1 ∧
    r.consistency_score_pct = (scheduleStats sqrtA (schedBuckets parse videos).timestamps).2 ∧
    r.posts_by_day = pySorted (fun a b => day_names.indexOf a.1 ≤ day_names.indexOf b.1)
      (schedBuckets parse videos).byDay := by
  have hne := upload_schedule_of_ne_nil h
  unfold upload_schedule_of at h
  rw [if_neg hne] at h
  have h2 := Except.ok.inj h
  subst h2
  exact ⟨rfl, rfl, rfl⟩

theorem scheduleStats_short {sqrtA : ℚ → ℚ} {timestamps : List PyDateTime}
    (h : timestamps.length < 2) : scheduleStats sqrtA timestamps = (0, 0) := by
  unfold scheduleStats
  rw [if_neg (by omega)]

theorem scheduleStats_pair (sqrtA : ℚ → ℚ) (d1 d2 : PyDateTime) :
    scheduleStats sqrtA [d1, d2] =
      (safe_float ((Int.fdiv (max d1.totalSeconds d2.totalSeconds -
        min d1.totalSeconds d2.totalSeconds) 86400 : ℤ) : ℚ) 1, 0) := by
  unfold scheduleStats
  rw [if_pos (by simp)]
  rw [pySorted_pair]
  by_cases hle : d1.totalSeconds ≤ d2.totalSeconds
  · rw [if_pos (by simpa using hle)]
    have hgaps : consecutiveGaps [d1, d2] = [gapDays d1 d2] := rfl
    simp only [hgaps]
    have hmax : max d1.totalSeconds d2.totalSeconds = d2.totalSeconds := max_eq_right hle
    have hmin : min d1.totalSeconds d2.totalSeconds = d1.totalSeconds := min_eq_left hle
    rw [hmax, hmin]
    rw [Prod.mk.injEq]
    constructor
    · simp [gapDays]
    · simp [stdevOpt]
  · rw [if_neg (by simpa using hle)]
    have hgaps : consecutiveGaps [d2, d1] = [gapDays d2 d1] := rfl
    simp only [hgaps]
    have hle2 : d2.totalSeconds ≤ d1.totalSeconds := le_of_not_le hle
    have hmax : max d1.totalSeconds d2.totalSeconds = d1.totalSeconds := max_eq_left hle2
    have hmin : min d1.totalSeconds d2.totalSeconds = d2.totalSeconds := min_eq_right hle2
    rw [hmax, hmin]
    rw [Prod.mk.injEq]
    constructor
    · simp [gapDays]
    · simp [stdevOpt]

/-! ## Claim C6 -/

/-- C6: when the fetched videos yield fewer than 2 parseable publish
timestamps, get_upload_schedule returns both avg_days_between_uploads and
consistency_score_pct equal to 0, and the weekday keys of posts_by_day are
always emitted in Monday-through-Sunday order. -/
theorem C6_upload_schedule :
    ∀ (env : Env) (url : String) (limit fuel : ℕ) (videos : List VideoRec)
      (r : ScheduleResult),
      fetch_videos_for_channel env url limit fuel = some (.ok videos) →
      get_upload_schedule env url limit fuel = some (.ok r) →
      ((videos.filterMap fun v => env.fromisoformat v.published_at).length < 2 →
        r.avg_days_between_uploads = 0 ∧ r.consistency_score_pct = 0) ∧
      List.Pairwise (fun a b => day_names.indexOf a.1 ≤ day_names.indexOf b.1)
        r.posts_by_day := by
  intro env url limit fuel videos r hfetch hsched
  rcases get_upload_schedule_ok hsched with ⟨videos2, hfetch2, hu⟩
  rw [hfetch] at hfetch2
  have hv : videos2 = videos := by cases hfetch2; rfl
  subst hv
  rcases upload_schedule_of_fields hu with ⟨havg, hcons, hday⟩
  constructor
  · intro hcount
    have hts : (schedBuckets env.fromisoformat videos2).timestamps.length < 2 := by
      rw [schedBuckets_timestamps]
      exact hcount
    rw [havg, hcons, scheduleStats_short hts]
    exact ⟨rfl, rfl⟩
  · rw [hday]
    exact pySorted_pairwise (fun a b => day_names.indexOf a.1 ≤ day_names.indexOf b.1)
      (fun a b c hab hbc => by exact le_trans hab hbc)
      (fun a b => by exact le_total _ _)
      (schedBuckets env.fromisoformat videos2).byDay

/-- Witness for C6: a channel whose two timestamps never parse gets both
statistics 0 (and an empty, trivially ordered day counter). -/
theorem C6_upload_schedule_witness :
    c6res.avg_days_between_uploads = 0 ∧ c6res.consistency_score_pct = 0 :=
  (C6_upload_schedule envC2 "https://www.youtube.com/channel/UC1" 50 1 c2videos c6res
    (by decide) (by decide)).1 (by decide)

/-! ## Claim C9 -/

/-- C9: when the fetched videos yield exactly 2 parseable publish timestamps,
get_upload_schedule returns consistency_score_pct = 0 (the sample standard
deviation over the single gap raises StatisticsError, handled as zero) while
avg_days_between_uploads is the single gap in whole days rounded to 1
decimal. -/
theorem C9_two_timestamps :
    ∀ (env : Env) (url : String) (limit fuel : ℕ) (videos : List VideoRec)
      (r : ScheduleResult) (d1 d2 : PyDateTime),
      fetch_videos_for_channel env url limit fuel = some (.ok videos) →
      get_upload_schedule env url limit fuel = some (.ok r) →
      videos.filterMap (fun v => env.fromisoformat v.published_at) = [d1, d2] →
      r.consistency_score_pct = 0 ∧
      r.avg_days_between_uploads =
        safe_float ((Int.fdiv (max d1.totalSeconds d2.totalSeconds -
          min d1.totalSeconds d2.totalSeconds) 86400 : ℤ) : ℚ) 1 := by
  intro env url limit fuel videos r d1 d2 hfetch hsched hts
  rcases get_upload_schedule_ok hsched with ⟨videos2, hfetch2, hu⟩
  rw [hfetch] at hfetch2
  have hv : videos2 = videos := by cases hfetch2; rfl
  subst hv
  rcases upload_schedule_of_fields hu with ⟨havg, hcons, _⟩
  have hts2 : (schedBuckets env.fromisoformat videos2).timestamps = [d1, d2] := by
    rw [schedBuckets_timestamps]
    exact hts
  rw [havg, hcons, hts2, scheduleStats_pair]
  exact ⟨rfl, rfl⟩

unseal Rat.mul Rat.add Rat.inv Rat.sub in
/-- Witness for C9 on a channel with two timestamps three days apart. -/
theorem C9_two_timestamps_witness :
    c9res.consistency_score_pct = 0 ∧
    c9res.avg_days_between_uploads =
      safe_float ((Int.fdiv (max (PyDateTime.mk 0 0 0).totalSeconds
        (PyDateTime.mk 259200 0 0).totalSeconds -
        min (PyDateTime.mk 0 0 0).totalSeconds
        (PyDateTime.mk 259200 0 0).totalSeconds) 86400 : ℤ) : ℚ) 1 :=
  C9_two_timestamps envC9 "https://www.youtube.com/channel/UC1" 50 1 c9videos c9res
    ⟨0, 0, 0⟩ ⟨259200, 0, 0⟩ (by decide) (by decide) (by decide)

/-! ## Helper lemmas: nearest-integer rounding of fifths -/

theorem roundHalfEven_int_add (z : ℤ) (c : ℚ) (h0 : 0 ≤ c) (h1 : c < 1) :
    roundHalfEven ((z : ℚ) + c) =
      if c < 1/2 then z else if 1/2 < c then z + 1
      else if z % 2 = 0 then z else z + 1 := by
  unfold roundHalfEven
  rw [ratFloor_eq_intFloor]
  have hf : ⌊(z : ℚ) + c⌋ = z := by
    rw [Int.floor_int_add, Int.floor_eq_zero_iff.mpr ⟨h0, h1⟩, add_zero]
  rw [hf]
  have hc : (z : ℚ) + c - z = c := by ring
  rw [hc]

theorem roundHalfEven_div_five (n : ℤ) :
    roundHalfEven ((n : ℚ) / 5) = round ((n : ℚ) / 5) := by
  have hq : n = 5 * (n / 5) + n % 5 := (Int.ediv_add_emod n 5).symm
  have hr0 : 0 ≤ n % 5 := Int.emod_nonneg n (by norm_num)
  have hr5 : n % 5 < 5 := Int.emod_lt_of_pos n (by norm_num)
  set q := n / 5 with hqdef
  set r := n % 5 with hrdef
  have hx : (n : ℚ) / 5 = (q : ℚ) + (r : ℚ) / 5 := by
    rw [hq]
    push_cast
    ring
  rw [hx]
  have hc0 : (0 : ℚ) ≤ (r : ℚ) / 5 := by positivity
  have hc1 : (r : ℚ) / 5 < 1 := by
    rw [div_lt_one (by norm_num)]
    exact_mod_cast hr5
  rw [roundHalfEven_int_add q _ hc0 hc1, round_int_add]
  interval_cases r <;> norm_num [round_eq]

/-! ## Claim C7 -/

/-- C7: a title of 40 to 70 characters scores 100 with status great, an empty
tag list scores 0 with status poor, and the overall SEO score of every
get_video_seo_score result is the unweighted mean of the five dimension
scores rounded to the nearest integer. -/
theorem C7_seo_score :
    (∀ title : String, 40 ≤ title.length → title.length ≤ 70 →
      (title_length_check title).score = 100 ∧
        (title_length_check title).status = "great") ∧
    (∀ tags : List String, tags.length = 0 →
      (tag_count_check tags).score = 0 ∧ (tag_count_check tags).status = "poor") ∧
    (∀ env vid r, get_video_seo_score env vid = .ok r →
      r.checks.map (fun c => c.1) =
        ["title_length", "description_length", "tag_count", "thumbnail",
         "description_quality"] ∧
      r.overall_score = round ((r.checks.map fun c => ((c.2.score : ℚ))).sum / 5)) := by
  refine ⟨?_, ?_, ?_⟩
  · intro title h1 h2
    unfold title_length_check
    rw [if_pos ⟨h1, h2⟩]
    exact ⟨rfl, rfl⟩
  · intro tags h
    unfold tag_count_check
    rw [if_neg (by omega), if_neg (by omega), if_neg (by omega)]
    exact ⟨rfl, rfl⟩
  · intro env vid r h
    unfold get_video_seo_score at h
    cases hres : env.videosByIds [vid] with
    | nil => rw [hres] at h; exact absurd h (by simp)
    | cons item rest =>
      rw [hres] at h
      have h2 := Except.ok.inj h
      subst h2
      refine ⟨rfl, ?_⟩
      show seoOverall (seoChecks (item.title.getD "") (item.description.getD "")
        (item.tags.getD []) (thumbnail_url item.thumbnails)) = _
      set cs := seoChecks (item.title.getD "") (item.description.getD "")
        (item.tags.getD []) (thumbnail_url item.thumbnails) with hcs
      have hsum : (cs.map fun c => ((c.2.score : ℚ))).sum =
          (((cs.map fun c => c.2.score).sum : ℕ) : ℚ) := by
        rw [Nat.cast_list_sum, List.map_map]
        rfl
      have hlen : (cs.length : ℚ) = 5 := by rw [hcs]; rfl
      unfold seoOverall
      rw [hsum, hlen]
      have hcast : ((((cs.map fun c => c.2.score).sum : ℕ) : ℚ)) =
          ((((cs.map fun c => c.2.score).sum : ℕ) : ℤ) : ℚ) := by push_cast; rfl
      rw [hcast, roundHalfEven_div_five]

unseal Rat.mul Rat.add Rat.inv Rat.sub in
/-- Witness for C7: the 50-character title scores 100/great and the overall
score on a concrete video is the rounded mean of its five check scores. -/
theorem C7_seo_score_witness :
    ((title_length_check c7title).score = 100 ∧
      (title_length_check c7title).status = "great") ∧
    (c7res.checks.map (fun c => c.1) =
      ["title_length", "description_length", "tag_count", "thumbnail",
       "description_quality"] ∧
      c7res.overall_score = round ((c7res.checks.map fun c => ((c.2.score : ℚ))).sum / 5)) :=
  ⟨C7_seo_score.1 c7title (by decide) (by decide),
   C7_seo_score.2.2 envC7 "v" c7res (by decide)⟩

/-! ## Helper lemmas: the split scan of get_channel_topics -/

theorem isPrefixOf_append_of_le_length {sep : List Char} :
    ∀ {u : List Char} (v : List Char), sep.length ≤ u.length →
      sep.isPrefixOf (u ++ v) = sep.isPrefixOf u := by
  induction sep with
  | nil => intro u v _; simp [List.isPrefixOf]
  | cons a as ih =>
    intro u v h
    cases u with
    | nil => simp at h
    | cons b bs =>
      simp only [List.cons_append, List.isPrefixOf, List.append_eq]
      rw [ih v (by simpa using h)]

theorem pySplitF_ne_nil (sep : List Char) (fuel : ℕ) (l : List Char) :
    pySplitF sep fuel l ≠ [] := by
  cases l with
  | nil => cases fuel <;> simp [pySplitF]
  | cons c rest =>
    cases fuel with
    | zero => simp [pySplitF]
    | succ n =>
      simp only [pySplitF]
      split
      · simp
      · split
        · simp
        · split <;> simp

theorem pySplitF_no_match_prefix (sep : List Char) :
    ∀ (pre : List Char) (fuel : ℕ) (rest : List Char),
      (∀ i, i < pre.length → sep.isPrefixOf (pre.drop i ++ rest) = false) →
      pre.length ≤ fuel →
      ∀ h t, pySplitF sep (fuel - pre.length) rest = h :: t →
        pySplitF sep fuel (pre ++ rest) = (pre ++ h) :: t := by
  intro pre
  induction pre with
  | nil =>
    intro fuel rest _ _ h t hrec
    simpa using hrec
  | cons c pre2 ih =>
    intro fuel rest hno hlen h t hrec
    cases fuel with
    | zero => simp at hlen
    | succ n =>
      have hsep : sep ≠ [] := by
        intro h0
        have := hno 0 (by simp)
        rw [h0] at this
        simp [List.isPrefixOf] at this
      have hno0 : sep.isPrefixOf (c :: (pre2 ++ rest)) = false := by
        have := hno 0 (by simp)
        simpa using this
      have ihres : pySplitF sep n (pre2 ++ rest) = (pre2 ++ h) :: t := by
        apply ih n rest
        · intro i hi
          have := hno (i + 1) (by simpa using Nat.succ_lt_succ hi)
          simpa using this
        · simpa using Nat.le_of_succ_le_succ hlen
        · have : n - pre2.length = n + 1 - (pre2.length + 1) := by omega
          rw [this]
          simpa using hrec
      show pySplitF sep (n + 1) (c :: (pre2 ++ rest)) = _
      simp only [pySplitF, if_neg hsep, hno0, Bool.false_eq_true, if_false]
      rw [ihres]
      rfl

theorem pySplitF_match_head (sep : List Char) (hsep : sep ≠ []) (fuel : ℕ)
    (s : List Char) :
    pySplitF sep (fuel + 1) (sep ++ s) = [] :: pySplitF sep fuel s := by
  cases sep with
  | nil => exact absurd rfl hsep
  | cons a as =>
    have hpre : (a :: as).isPrefixOf ((a :: as) ++ s) = true :=
      List.isPrefixOf_iff_prefix.mpr (by exact ⟨s, rfl⟩)
    show pySplitF (a :: as) (fuel + 1) (a :: (as ++ s)) = _
    simp only [pySplitF, if_neg (by simp : ¬(a :: as = [])),
      show (a :: as).isPrefixOf (a :: (as ++ s)) = true from hpre, if_true]
    congr 1
    show pySplitF (a :: as) fuel (((a :: as) ++ s).drop (a :: as).length) = _
    rw [List.drop_left]

theorem pySplitF_no_head (a : Char) (as : List Char) :
    ∀ (s : List Char) (fuel : ℕ), s.length ≤ fuel → (∀ c ∈ s, c ≠ a) →
      pySplitF (a :: as) fuel s = [s] := by
  intro s
  induction s with
  | nil => intro fuel _ _; cases fuel <;> rfl
  | cons c rest ih =>
    intro fuel hlen hc
    cases fuel with
    | zero => simp at hlen
    | succ n =>
      have hca : (a == c) = false := by
        have : c ≠ a := hc c (by simp)
        simp [BEq.beq]
        intro h0
        exact absurd h0.symm this
      have hpre : (a :: as).isPrefixOf (c :: rest) = false := by
        simp [List.isPrefixOf, hca]
      simp only [pySplitF, if_neg (by simp : ¬(a :: as = [])), hpre,
        Bool.false_eq_true, if_false]
      rw [ih n (by simpa using hlen) (fun x hx => hc x (by simp [hx]))]

theorem pySplit_wiki_standard (seg : List Char) (hseg : ∀ c ∈ seg, c ≠ '/') :
    pySplit "/wiki/".data ("https://en.wikipedia.org/wiki/".data ++ seg) =
      ["https://en.wikipedia.org".data, seg] := by
  have hdecomp : "https://en.wikipedia.org/wiki/".data =
      "https://en.wikipedia.org".data ++ "/wiki/".data := by decide
  have hlen30 : ("https://en.wikipedia.org/wiki/".data ++ seg).length =
      30 + seg.length := by
    rw [List.length_append]
    norm_num [show ("https://en.wikipedia.org/wiki/".data).length = 30 from by decide]
  unfold pySplit
  rw [hlen30, hdecomp, List.append_assoc]
  apply pySplitF_no_match_prefix
  · intro i hi
    rw [← List.append_assoc]
    rw [isPrefixOf_append_of_le_length seg (by
      simp only [List.length_append]
      norm_num [show ("/wiki/".data).length = 6 from by decide])]
    have hdec : ∀ i, i < 24 →
        ("/wiki/".data).isPrefixOf
          (("https://en.wikipedia.org".data).drop i ++ "/wiki/".data) = false := by
      decide
    exact hdec i (by
      have : ("https://en.wikipedia.org".data).length = 24 := by decide
      omega)
  · have : ("https://en.wikipedia.org".data).length = 24 := by decide
    omega
  · have h24 : ("https://en.wikipedia.org".data).length = 24 := by decide
    rw [h24]
    have harith : 30 + seg.length - 24 = (5 + seg.length) + 1 := by omega
    rw [harith]
    rw [pySplitF_match_head "/wiki/".data (by decide) (5 + seg.length) seg]
    rw [show ("/wiki/".data) = '/' :: "wiki/".data from by decide]
    rw [pySplitF_no_head '/' ("wiki/".data) seg (5 + seg.length) (by omega) hseg]

theorem takeWhile_all_append (p : Char → Bool) (xs ys : List Char)
    (hxs : ∀ c ∈ xs, p c = true) :
    (xs ++ ys).takeWhile p = xs ++ ys.takeWhile p := by
  rw [List.takeWhile_append]
  rw [if_pos]
  rw [List.takeWhile_eq_self_iff.mpr hxs]

/-! ## Claim C5 -/

/-- C5 (amended): get_channel_topics derives every readable topic name by
taking the part of the topic-category URL after the final scanned occurrence
of the wiki marker with underscores replaced by spaces; for URLs of the
standard shape, the wiki prefix followed by a slash-free segment, this equals
the last path segment of the URL with underscores replaced by spaces. -/
theorem C5_topic_names :
    (∀ (env : Env) (url : String) (r : TopicsResult),
      get_channel_topics env url = .ok r →
      r.topics = r.topic_category_urls.map topicName) ∧
    (∀ seg : List Char, (∀ c ∈ seg, c ≠ '/') →
      topicName ⟨"https://en.wikipedia.org/wiki/".data ++ seg⟩ =
        lastPathSegmentName ⟨"https://en.wikipedia.org/wiki/".data ++ seg⟩) := by
  constructor
  · intro env url r h
    unfold get_channel_topics at h
    cases hres : resolve_channel_id env url with
    | error e => rw [hres] at h; simp [bind, Except.bind] at h
    | ok cid =>
      rw [hres] at h
      simp only [bind, Except.bind] at h
      cases hitems : env.channelTopicItems cid with
      | nil => rw [hitems] at h; simp at h
      | cons item rest =>
        rw [hitems] at h
        simp only [pure, Except.pure] at h
        have h2 := Except.ok.inj h
        subst h2
        rfl
  · intro seg hseg
    unfold topicName lastPathSegmentName
    congr 1
    rw [show (⟨"https://en.wikipedia.org/wiki/".data ++ seg⟩ : String).data =
      "https://en.wikipedia.org/wiki/".data ++ seg from rfl]
    rw [pySplit_wiki_standard seg hseg]
    rw [List.reverse_append]
    rw [takeWhile_all_append _ seg.reverse ("https://en.wikipedia.org/wiki/".data.reverse)
      (by
        intro c hc
        rw [List.mem_reverse] at hc
        exact decide_eq_true (hseg c hc))]
    rw [show (("https://en.wikipedia.org/wiki/".data.reverse).takeWhile
        fun c => c ≠ '/') = [] from by decide]
    simp

/-- Witness for C5: the standard Wikipedia URL of the topic Indie game. -/
theorem C5_topic_names_witness :
    topicName ⟨"https://en.wikipedia.org/wiki/".data ++ "Indie_game".data⟩ =
      lastPathSegmentName ⟨"https://en.wikipedia.org/wiki/".data ++ "Indie_game".data⟩ :=
  C5_topic_names.2 "Indie_game".data (by decide)

/-- Counterexample for C5 as stated: on a topic-category URL whose part after
the wiki marker contains a further slash, get_channel_topics emits the whole
tail, not the last path segment. -/
theorem C5_counterexample :
    (get_channel_topics envC5 "https://www.youtube.com/channel/UC1").map
        (fun r => r.topics) = .ok ["A/B"] ∧
    lastPathSegmentName "https://en.wikipedia.org/wiki/A/B" = "B" ∧
    ("A/B" : String) ≠ "B" := by
  exact ⟨by decide, by decide, by decide⟩

/-! ## Helper lemmas: trailing slashes through the url parser -/

theorem takeWhile_stop_append (p : Char → Bool) (xs ys : List Char)
    (h : ¬ ∀ c ∈ xs, p c = true) : (xs ++ ys).takeWhile p = xs.takeWhile p := by
  rw [List.takeWhile_append, if_neg]
  intro hlen
  exact h (List.takeWhile_eq_self_iff.mp
    (List.Sublist.eq_of_length (List.takeWhile_sublist p) hlen))

theorem dropWhile_replicate_append (p : Char → Bool) (a : Char) (hp : p a = true)
    (k : ℕ) (rest : List Char) :
    (List.replicate k a ++ rest).dropWhile p = rest.dropWhile p := by
  induction k with
  | zero => simp
  | succ n ih => simp [List.replicate_succ, List.dropWhile_cons, hp, ih]

theorem rstripSlash_append_replicate (w : List Char) (k : ℕ) :
    rstripSlash (w ++ List.replicate k '/') = rstripSlash w := by
  unfold rstripSlash
  rw [List.reverse_append, List.reverse_replicate]
  rw [dropWhile_replicate_append _ '/' (by decide) k w.reverse]

theorem rstripSlash_replicate (k : ℕ) : rstripSlash (List.replicate k '/') = [] := by
  have h := rstripSlash_append_replicate [] k
  simpa using h

theorem dropWhile_ne_slash_replicate (k : ℕ) :
    (List.replicate k '/').dropWhile (· ≠ '/') = List.replicate k '/' := by
  cases k with
  | zero => rfl
  | succ n => simp [List.replicate_succ, List.dropWhile_cons]

theorem qfStrip_append_slashes (u : List Char) (k : ℕ) :
    qfStrip (u ++ List.replicate k '/') = qfStrip u ++ List.replicate k '/' ∨
    qfStrip (u ++ List.replicate k '/') = qfStrip u := by
  unfold qfStrip
  by_cases h1 : ∀ c ∈ u, (decide (c ≠ '#')) = true
  · have hss1 : ∀ c ∈ List.replicate k '/', (decide (c ≠ '#')) = true := by
      intro c hc
      rw [List.mem_replicate] at hc
      rw [hc.2]
      decide
    rw [takeWhile_all_append _ u _ h1]
    rw [List.takeWhile_eq_self_iff.mpr hss1]
    rw [List.takeWhile_eq_self_iff.mpr h1]
    by_cases h2 : ∀ c ∈ u, (decide (c ≠ '?')) = true
    · left
      have hss2 : ∀ c ∈ List.replicate k '/', (decide (c ≠ '?')) = true := by
        intro c hc
        rw [List.mem_replicate] at hc
        rw [hc.2]
        decide
      rw [takeWhile_all_append _ u _ h2]
      rw [List.takeWhile_eq_self_iff.mpr hss2]
      rw [List.takeWhile_eq_self_iff.mpr h2]
    · right
      exact takeWhile_stop_append _ u _ h2
  · right
    rw [takeWhile_stop_append _ u _ h1]

theorem dropScheme_append_slashes (u : List Char) (k : ℕ) :
    dropScheme (u ++ List.replicate k '/') = dropScheme u ++ List.replicate k '/' := by
  unfold dropScheme
  by_cases hcol : ∀ c ∈ u, (decide (c ≠ ':')) = true
  · have hpass : (u ++ List.replicate k '/').takeWhile (· ≠ ':') =
        u ++ List.replicate k '/' := by
      apply List.takeWhile_eq_self_iff.mpr
      intro c hc
      rcases List.mem_append.mp hc with hc | hc
      · exact hcol c hc
      · rw [List.mem_replicate] at hc
        rw [hc.2]
        decide
    rw [hpass, List.takeWhile_eq_self_iff.mpr hcol]
    rw [if_neg (by simp), if_neg (by simp)]
  · have hstop : (u ++ List.replicate k '/').takeWhile (· ≠ ':') =
        u.takeWhile (· ≠ ':') :=
      takeWhile_stop_append _ u _ hcol
    rw [hstop]
    have hne : u.takeWhile (· ≠ ':') ≠ u := by
      intro he
      exact hcol (List.takeWhile_eq_self_iff.mp he)
    have hle := (List.takeWhile_sublist (l := u) (· ≠ ':')).length_le
    have hlt : (u.takeWhile (· ≠ ':')).length < u.length := by
      rcases Nat.lt_or_ge (u.takeWhile (· ≠ ':')).length u.length with h | h
      · exact h
      · exact absurd (List.Sublist.eq_of_length
          (List.takeWhile_sublist (· ≠ ':')) (by omega)) hne
    have hlt2 : (u.takeWhile (· ≠ ':')).length <
        (u ++ List.replicate k '/').length := by
      rw [List.length_append]
      omega
    by_cases hvalid : u.takeWhile (· ≠ ':') ≠ [] ∧
        ((u.takeWhile (· ≠ ':')).headD ' ').isAlpha = true ∧
        (u.takeWhile (· ≠ ':')).all isSchemeChar = true
    · rw [if_pos ⟨hlt2, hvalid.1, hvalid.2.1, hvalid.2.2⟩,
        if_pos ⟨hlt, hvalid.1, hvalid.2.1, hvalid.2.2⟩]
      rw [List.drop_append_eq_append_drop]
      have hz : (u.takeWhile (· ≠ ':')).length + 1 - u.length = 0 := by omega
      rw [hz]
      simp
    · rw [if_neg (fun hc => hvalid ⟨hc.2.1, hc.2.2.1, hc.2.2.2⟩),
        if_neg (fun hc => hvalid ⟨hc.2.1, hc.2.2.1, hc.2.2.2⟩)]

theorem dropWhile_ne_slash_append (w2 : List Char) (ss : List Char)
    (hss : ss.dropWhile (· ≠ '/') = ss) :
    rstripSlash ((w2 ++ ss).dropWhile (· ≠ '/')) =
      rstripSlash (w2.dropWhile (· ≠ '/') ++ ss) := by
  rw [List.dropWhile_append]
  by_cases he : (w2.dropWhile (· ≠ '/')).isEmpty = true
  · rw [if_pos he, hss]
    rw [List.isEmpty_iff.mp he]
    simp
  · rw [if_neg he]

theorem rstrip_pathStage_append_slashes (w : List Char) (k : ℕ) :
    rstripSlash (pathStage (w ++ List.replicate k '/')) =
      rstripSlash (pathStage w) := by
  cases k with
  | zero => simp
  | succ k2 =>
    have hss_cons : List.replicate (k2 + 1) '/' = '/' :: List.replicate k2 '/' :=
      List.replicate_succ '/' k2
    have hss_drop : (List.replicate (k2 + 1) '/').dropWhile (· ≠ '/') =
        List.replicate (k2 + 1) '/' := dropWhile_ne_slash_replicate (k2 + 1)
    cases w with
    | nil =>
      simp only [List.nil_append]
      rw [show pathStage ([] : List Char) = [] from rfl]
      cases k2 with
      | zero => decide
      | succ k3 =>
        unfold pathStage
        rw [if_pos (by simp [List.replicate_succ])]
        rw [show (List.replicate (k3 + 1 + 1) '/').drop 2 = List.replicate k3 '/' by
          simp [List.replicate_succ]]
        rw [dropWhile_ne_slash_replicate k3, rstripSlash_replicate]
        rfl
    | cons a w1 =>
      cases w1 with
      | nil =>
        by_cases ha : a = '/'
        · subst ha
          unfold pathStage
          rw [show (['/'] ++ List.replicate (k2 + 1) '/').take 2 = ['/', '/'] by
            simp [hss_cons]]
          rw [if_pos rfl]
          rw [show (['/'] ++ List.replicate (k2 + 1) '/').drop 2 =
            List.replicate k2 '/' by simp [hss_cons]]
          rw [dropWhile_ne_slash_replicate k2, rstripSlash_replicate]
          rw [if_neg (by decide)]
          decide
        · unfold pathStage
          rw [show ([a] ++ List.replicate (k2 + 1) '/').take 2 = [a, '/'] by
            simp [hss_cons]]
          rw [if_neg (by simp [ha]), if_neg (by simp)]
          rw [show [a] ++ List.replicate (k2 + 1) '/' =
            [a] ++ List.replicate (k2 + 1) '/' from rfl]
          exact rstripSlash_append_replicate [a] (k2 + 1)
      | cons b w2 =>
        by_cases hab : a = '/' ∧ b = '/'
        · rcases hab with ⟨rfl, rfl⟩
          unfold pathStage
          rw [show (('/' :: '/' :: w2) ++ List.replicate (k2 + 1) '/').take 2 =
            ['/', '/'] from rfl]
          rw [show ('/' :: '/' :: w2).take 2 = ['/', '/'] from rfl]
          rw [if_pos rfl, if_pos rfl]
          rw [show (('/' :: '/' :: w2) ++ List.replicate (k2 + 1) '/').drop 2 =
            w2 ++ List.replicate (k2 + 1) '/' from rfl]
          rw [show ('/' :: '/' :: w2).drop 2 = w2 from rfl]
          rw [dropWhile_ne_slash_append w2 _ hss_drop]
          exact rstripSlash_append_replicate _ (k2 + 1)
        · have htk : ((a :: b :: w2) ++ List.replicate (k2 + 1) '/').take 2 =
              [a, b] := rfl
          have hne : ¬([a, b] = ['/', '/']) := by
            intro hc
            apply hab
            constructor
            · exact (List.cons.injEq _ _ _ _).mp hc |>.1
            · exact ((List.cons.injEq _ _ _ _).mp ((List.cons.injEq _ _ _ _).mp hc).2).1
          unfold pathStage
          rw [htk, if_neg hne]
          rw [show (a :: b :: w2).take 2 = [a, b] from rfl, if_neg hne]
          exact rstripSlash_append_replicate _ (k2 + 1)

theorem mem_dropWhile_of_not_pred {c : Char} (p : Char → Bool) (hc : p c = false) :
    ∀ (l : List Char), c ∈ l.dropWhile p ↔ c ∈ l := by
  intro l
  induction l with
  | nil => simp
  | cons a t ih =>
    by_cases ha : p a = true
    · rw [List.dropWhile_cons, if_pos ha, ih]
      constructor
      · exact fun h => List.mem_cons_of_mem a h
      · intro h
        rcases List.mem_cons.mp h with h | h
        · subst h
          rw [ha] at hc
          exact absurd hc (by simp)
        · exact h
    · rw [List.dropWhile_cons, if_neg ha]

theorem mem_rstripSlash_iff {c : Char} (hc : c ≠ '/') (s : List Char) :
    c ∈ rstripSlash s ↔ c ∈ s := by
  unfold rstripSlash
  rw [List.mem_reverse, mem_dropWhile_of_not_pred _ (by simp [hc]), List.mem_reverse]

theorem semi_notMem_pathStage_append (w : List Char) (k : ℕ)
    (h : ';' ∉ pathStage w) : ';' ∉ pathStage (w ++ List.replicate k '/') := by
  intro hmem
  apply h
  have h1 : ';' ∈ rstripSlash (pathStage (w ++ List.replicate k '/')) :=
    (mem_rstripSlash_iff (by decide) _).mpr hmem
  rw [rstrip_pathStage_append_slashes w k] at h1
  exact (mem_rstripSlash_iff (by decide) _).mp h1

theorem splitParams_of_no_semi {p : List Char} (h : ';' ∉ p) : splitParams p = p := by
  unfold splitParams
  rw [if_neg h]

theorem schemeOf_append_slashes (u : List Char) (k : ℕ) :
    schemeOf (u ++ List.replicate k '/') = schemeOf u := by
  unfold schemeOf
  by_cases hcol : ∀ c ∈ u, (decide (c ≠ ':')) = true
  · have hpass : (u ++ List.replicate k '/').takeWhile (· ≠ ':') =
        u ++ List.replicate k '/' := by
      apply List.takeWhile_eq_self_iff.mpr
      intro c hc
      rcases List.mem_append.mp hc with hc | hc
      · exact hcol c hc
      · rw [List.mem_replicate] at hc
        rw [hc.2]
        decide
    rw [hpass, List.takeWhile_eq_self_iff.mpr hcol]
    rw [if_neg (by simp), if_neg (by simp)]
  · have hstop : (u ++ List.replicate k '/').takeWhile (· ≠ ':') =
        u.takeWhile (· ≠ ':') :=
      takeWhile_stop_append _ u _ hcol
    rw [hstop]
    have hne : u.takeWhile (· ≠ ':') ≠ u := by
      intro he
      exact hcol (List.takeWhile_eq_self_iff.mp he)
    have hle := (List.takeWhile_sublist (l := u) (· ≠ ':')).length_le
    have hlt : (u.takeWhile (· ≠ ':')).length < u.length := by
      rcases Nat.lt_or_ge (u.takeWhile (· ≠ ':')).length u.length with h | h
      · exact h
      · exact absurd (List.Sublist.eq_of_length
          (List.takeWhile_sublist (· ≠ ':')) (by omega)) hne
    have hlt2 : (u.takeWhile (· ≠ ':')).length <
        (u ++ List.replicate k '/').length := by
      rw [List.length_append]
      omega
    by_cases hvalid : u.takeWhile (· ≠ ':') ≠ [] ∧
        ((u.takeWhile (· ≠ ':')).headD ' ').isAlpha = true ∧
        (u.takeWhile (· ≠ ':')).all isSchemeChar = true
    · rw [if_pos ⟨hlt2, hvalid.1, hvalid.2.1, hvalid.2.2⟩,
        if_pos ⟨hlt, hvalid.1, hvalid.2.1, hvalid.2.2⟩]
    · rw [if_neg (fun hc => hvalid ⟨hc.2.1, hc.2.2.1, hc.2.2.2⟩),
        if_neg (fun hc => hvalid ⟨hc.2.1, hc.2.2.1, hc.2.2.2⟩)]

theorem rstrip_urlPath_append_slashes (u : String) (k : ℕ)
    (hsemi : ';' ∉ pathStage (dropScheme (qfStrip u.data))) :
    rstripSlash (urlPath (u ++ ⟨List.replicate k '/'⟩)) =
      rstripSlash (urlPath u) := by
  unfold urlPath
  rw [show (u ++ (⟨List.replicate k '/'⟩ : String)).data =
    u.data ++ List.replicate k '/' from rfl]
  rcases qfStrip_append_slashes u.data k with hq | hq
  · rw [hq, dropScheme_append_slashes, schemeOf_append_slashes]
    by_cases hs : (⟨schemeOf (qfStrip u.data)⟩ : String) ∈ uses_params
    · rw [if_pos hs, if_pos hs,
        splitParams_of_no_semi (semi_notMem_pathStage_append _ k hsemi),
        splitParams_of_no_semi hsemi]
      exact rstrip_pathStage_append_slashes _ k
    · rw [if_neg hs, if_neg hs]
      exact rstrip_pathStage_append_slashes _ k
  · rw [hq]

/-! ## Claim C10 -/

/-- C10: resolve_channel_id is invariant under trailing slashes for every
channel URL whose extracted path (as it stands before the params split of
urlparse) contains no semicolon and matches one of the two accepted shapes:
appending one or more slash characters resolves identically, because the
rstrip of the extracted path absorbs them.  A semicolon in the last path
segment breaks the invariance, since urlparse splits it off into the params
component exactly when no slash follows it. -/
theorem C10_resolve_trailing_slashes :
    ∀ (env : Env) (url : String) (k : ℕ), 1 ≤ k →
      ';' ∉ pathStage (dropScheme (qfStrip url.data)) →
      ((matchChannelId (rstripSlash (urlPath url))).isSome = true ∨
        (matchHandle (rstripSlash (urlPath url))).isSome = true) →
      resolve_channel_id env (url ++ ⟨List.replicate k '/'⟩) =
        resolve_channel_id env url := by
  intro env url k _ hsemi _
  unfold resolve_channel_id
  rw [rstrip_urlPath_append_slashes url k hsemi]

/-- Witness for C10: a semicolon-free direct channel URL with two trailing
slashes. -/
theorem C10_resolve_trailing_slashes_witness :
    resolve_channel_id env0 ("https://www.youtube.com/channel/UC12" ++
        ⟨List.replicate 2 '/'⟩) =
      resolve_channel_id env0 "https://www.youtube.com/channel/UC12" :=
  C10_resolve_trailing_slashes env0 "https://www.youtube.com/channel/UC12" 2
    (by decide) (by decide) (Or.inl (by decide))

/-- Counterexample for C10 as stated: the params split of urlparse drops a
semicolon suffix of the last path segment, so https://x/channel/UC1;a has
extracted path /channel/UC1, which matches the accepted channel shape and
resolves to UC1, while the same URL with a trailing slash keeps the semicolon
in the path and fails with InvalidInput. -/
theorem C10_counterexample :
    (matchChannelId (rstripSlash (urlPath "https://x/channel/UC1;a"))).isSome
      = true ∧
    resolve_channel_id env0 "https://x/channel/UC1;a" = .ok "UC1" ∧
    resolve_channel_id env0 ("https://x/channel/UC1;a" ++
        ⟨List.replicate 1 '/'⟩) = .error .invalidInput := by
  exact ⟨by decide, by decide, by decide⟩
